import Mathlib

/-!
# A formal model of the jasy JavaScript lexer

This file embeds `src/lib/js/Lexer.py` (the hand-written JavaScript
tokenizer) in Lean and proves properties of it.  Python strings are
modelled as `List Char`, the mutable `Lexer` object as an explicit state
record threaded through `Except`, and every Python-level failure mode
(the module's own `ParseError`, but also `IndexError` from unguarded
indexing, `KeyError`/`AttributeError` from dict and attribute access,
`NameError` from the undefined names `parseInt`/`parseFloat`, and the
`SyntaxError` that `eval` raises on non-Python source text) as a
constructor of an error type.  Unbounded `while True:` loops are embedded
as fuel-indexed recursive functions; every call site passes
`input.length + 1` fuel, which exceeds the number of iterations any of
the loops can make (each iteration strictly advances the cursor, and a
loop stops or fails once the cursor passes the end of the input), so the
fuel-exhaustion error is never actually produced there.
-/

/-- The failure modes of running the lexer, viewed as a Python program.
`parseError` is the module's own `ParseError(message, filename, line)`;
the remaining constructors model exceptions raised by the Python runtime
itself: `indexError` for out-of-range string indexing, `keyError` for a
missing dict key, `attributeError` for a missing object attribute,
`nameError` for an undefined global name (the module uses `parseInt` and
`parseFloat`, which are never defined or imported), `valueError` for
`int()`/`float()` on malformed text, and `evalFailure` for the
SyntaxError that `eval` raises when handed text that is not a Python
expression (every regex literal slice `/pattern/flags` is such text).
`fuelOut` is an artifact of the bounded-recursion embedding. -/
inductive PyError where
  | parseError (message : String) (filename : String) (line : ℕ)
  | indexError
  | keyError
  | attributeError
  | nameError (name : String)
  | valueError
  | evalFailure
  | fuelOut
deriving DecidableEq

/-- Decoded token values: Python ints, floats (modelled as rationals,
exact on every literal the tests exercise), and strings. -/
inductive JSValue where
  | vInt (n : ℤ)
  | vFloat (q : ℚ)
  | vStr (chars : List Char)
deriving DecidableEq

/-- A token object.  Python's `Token` class starts with no attributes at
all and the lexer assigns them one by one, so every field is an `Option`
with `none` meaning "attribute not set".  `assignOp` can be explicitly
assigned `None` in Python, hence the nested `Option`.  The `end`
attribute is called `tokEnd` because `end` is a Lean keyword. -/
structure Token where
  type : Option String := none
  value : Option JSValue := none
  start : Option ℕ := none
  tokEnd : Option ℕ := none
  line : Option ℕ := none
  assignOp : Option (Option String) := none
deriving DecidableEq

/-- The mutable lexer state (`Lexer.__init__`).  `tokens` is the 4-slot
ring buffer (a Python dict indexed by `tokenIndex & 3`, modelled as a
total function from `Fin 4` with `none` for absent slots). -/
structure Lexer where
  cursor : ℕ
  source : List Char
  tokens : Fin 4 → Option Token
  tokenIndex : Fin 4
  lookahead : ℕ
  scanNewlines : Bool
  scanOperand : Bool
  filename : String
  line : ℕ

/-- `Lexer(source, filename)`. -/
def initLexer (source : List Char) (filename : String) : Lexer :=
  { cursor := 0
    source := source
    tokens := fun _ => none
    tokenIndex := 0
    lookahead := 0
    scanNewlines := false
    scanOperand := true
    filename := filename
    line := 1 }

/-- The JavaScript 1.7 keyword list from the top of the module. -/
def keywords : List String :=
  ["break",
   "case", "catch", "const", "continue",
   "debugger", "default", "delete", "do",
   "else",
   "false", "finally", "for", "function",
   "if", "in", "instanceof",
   "let",
   "new", "null",
   "return",
   "switch",
   "this", "throw", "true", "try", "typeof",
   "var", "void",
   "yield",
   "while", "with"]

/-- The operator/punctuator table `operatorNames`. -/
def operatorNames : List (String × String) :=
  [("<", "lt"), (">", "gt"), ("<=", "le"), (">=", "ge"),
   ("!=", "ne"), ("!", "not"), ("==", "eq"), ("===", "strict_eq"),
   ("!==", "strict_ne"),
   (">>", "rsh"), ("<<", "lsh"), (">>>", "ursh"),
   ("+", "plus"), ("*", "mul"), ("-", "minus"), ("/", "div"), ("%", "mod"),
   (",", "comma"), (";", "semicolon"), (":", "colon"), ("=", "assign"),
   ("?", "hook"),
   ("&&", "and"), ("||", "or"),
   ("++", "increment"), ("--", "decrement"),
   (")", "right_paren"), ("(", "left_paren"),
   ("[", "left_bracket"), ("]", "right_bracket"),
   ("\x7b", "left_curly"), ("\x7d", "right_curly"),
   ("&", "bitwise_and"), ("^", "bitwise_xor"), ("|", "bitwise_or"),
   ("~", "bitwise_not")]

/-- The operators eligible for compound assignment (`assignOperators`). -/
def assignOperators : List String :=
  ["|", "^", "&", "<<", ">>", ">>>", "+", "-", "*", "/", "%"]

/-- `input[i]` on a Python string: the character, or `IndexError`. -/
def charAt (input : List Char) (i : ℕ) : Except PyError Char :=
  match input[i]? with
  | some c => .ok c
  | none => .error .indexError

/-- Reading a possibly-unset attribute: `AttributeError` when missing. -/
def attr {α : Type} (o : Option α) : Except PyError α :=
  match o with
  | some v => .ok v
  | none => .error .attributeError

/-- `d[k]` on a Python dict with string keys: the value, or `KeyError`. -/
def dictGet (d : List (String × String)) (k : String) : Except PyError String :=
  match d.lookup k with
  | some v => .ok v
  | none => .error .keyError

/-- Python slicing `input[a:b]` (indices clamped, never an error). -/
def pySlice (l : List Char) (a b : ℕ) : List Char :=
  (l.take b).drop a

/-- The numeric value of a list of decimal digit characters. -/
def digitsVal (l : List Char) : ℕ :=
  l.foldl (fun a c => a * 10 + (c.toNat - 48)) 0

/-- Is `c` a decimal digit (the comparisons the Python code writes out). -/
def isDig (c : Char) : Bool := decide ('0' ≤ c ∧ c ≤ '9')

/-- Python `int(text)` on the decimal-digit segments the lexer feeds it. -/
def pyInt (l : List Char) : Except PyError ℤ :=
  if l ≠ [] ∧ l.all isDig then .ok (digitsVal l) else .error .valueError

/-- The exact rational value of the decimal floating literal with
integer-and-fraction digits worth `m`, explicit exponent `e10`, and
`fracLen` digits after the decimal point: `m * 10 ^ (e10 - fracLen)`.
Built from integer arithmetic and `mkRat` so that it evaluates. -/
def decFloat (m : ℤ) (e10 : ℤ) (fracLen : ℕ) : ℚ :=
  let e : ℤ := e10 - fracLen
  if 0 ≤ e then ((m * 10 ^ e.toNat : ℤ) : ℚ) else mkRat m (10 ^ (-e).toNat)

/-- Python `float(text)` on the numeric segments the lexer feeds it:
optional integer digits, an optional `.` with optional fraction digits,
an optional `(e|E)(+|-)?digits` exponent.  The value is exact as a
rational.  Anything else is a `ValueError`. -/
def pyFloat (l : List Char) : Except PyError ℚ :=
  let (ip, r1) := l.span isDig
  let (fp, r2) :=
    match r1 with
    | '.' :: t => t.span isDig
    | _ => (([] : List Char), r1)
  if ip = [] ∧ fp = [] then .error .valueError
  else
    let m : ℤ := (digitsVal (ip ++ fp) : ℤ)
    match r2 with
    | [] => .ok (decFloat m 0 fp.length)
    | e :: t =>
      if e = 'e' ∨ e = 'E' then
        let (negE, d) :=
          match t with
          | '+' :: d => (false, d)
          | '-' :: d => (true, d)
          | d => (false, d)
        if d ≠ [] ∧ d.all isDig then
          .ok (decFloat m
            (if negE then -(digitsVal d : ℤ) else (digitsVal d : ℤ)) fp.length)
        else .error .valueError
      else .error .valueError

/-- One escape sequence, as Python string-literal evaluation decodes it
(single-character escapes only; unknown escapes keep the backslash). -/
def escSeq (c : Char) : List Char :=
  if c = 'n' then ['\n']
  else if c = 't' then ['\t']
  else if c = 'r' then ['\r']
  else if c = '\\' then ['\\']
  else if c = '\'' then ['\'']
  else if c = '"' then ['"']
  else if c = 'b' then [Char.ofNat 8]
  else if c = 'f' then [Char.ofNat 12]
  else if c = 'v' then [Char.ofNat 11]
  else if c = 'a' then [Char.ofNat 7]
  else if c = '0' then [Char.ofNat 0]
  else ['\\', c]

/-- Decode backslash escapes in the interior of a string literal. -/
def unescape : List Char → List Char
  | [] => []
  | '\\' :: c :: rest => escSeq c ++ unescape rest
  | c :: rest => c :: unescape rest

/-- Python `eval(text)` on the slices this lexer hands to it.  A slice
that is a quoted string literal evaluates to the decoded string; a slice
that begins with `/` (every regex literal) is not a Python expression
and raises SyntaxError, modelled as `evalFailure`. -/
def pyEval (l : List Char) : Except PyError JSValue :=
  match l with
  | [] => .error .evalFailure
  | c :: rest =>
    if c = '"' ∨ c = '\'' then .ok (.vStr (unescape rest.dropLast))
    else .error .evalFailure

/-- Overwrite the cursor and the current ring-buffer slot: the common
ending of every `lex*` method (each mutates `self.token` in place and
leaves `self.cursor` one past the lexeme). -/
def Lexer.finishTok (s : Lexer) (c : ℕ) (tk : Token) : Lexer :=
  { s with cursor := c, tokens := Function.update s.tokens s.tokenIndex (some tk) }

/-- Apply `f` to the token in the current ring-buffer slot. -/
def Lexer.updTok (s : Lexer) (f : Token → Token) : Lexer :=
  { s with tokens := Function.update s.tokens s.tokenIndex ((s.tokens s.tokenIndex).map f) }

/-- The block-comment loop of `Lexer.skip` (lines 175-189): consume
through `*/`, raising `ParseError("Unterminated comment")` at
end-of-input; note the read of `input[self.cursor]` after a `*` is
unguarded, while the `\n` case counts lines.  Returns the cursor just
past `*/` and the updated line. -/
def blockLoop (input : List Char) (fn : String) : ℕ → ℕ → ℕ → Except PyError (ℕ × ℕ)
  | 0, _, _ => .error .fuelOut
  | fuel + 1, c, l =>
    match input[c]? with
    | none => .error (.parseError "Unterminated comment" fn l)
    | some ch =>
      if ch = '*' then
        match input[c + 1]? with
        | none => .error .indexError
        | some next =>
          if next = '/' then .ok (c + 2, l)
          else blockLoop input fn fuel (c + 1) l
      else if ch = '\n' then blockLoop input fn fuel (c + 1) (l + 1)
      else blockLoop input fn fuel (c + 1) l

/-- The line-comment loop of `Lexer.skip` (lines 193-202): consume up to
and including a newline (incrementing the line counter), or return
directly from `skip` at end-of-input (the `Bool` is `true` when a
newline ended the comment, `false` for the end-of-input `return`). -/
def lineLoop (input : List Char) : ℕ → ℕ → ℕ → Except PyError (ℕ × ℕ × Bool)
  | 0, _, _ => .error .fuelOut
  | fuel + 1, c, l =>
    match input[c]? with
    | none => .ok (c, l, false)
    | some ch =>
      if ch = '\n' then .ok (c + 1, l + 1, true)
      else lineLoop input fuel (c + 1) l

/-- The outer loop of `Lexer.skip`: eat spaces, tabs, (outside
newline-sensitive mode) newlines, and both comment forms, stopping with
the cursor on the first character of the next real token. -/
def skipLoop (input : List Char) (fn : String) (sn : Bool) :
    ℕ → ℕ → ℕ → Except PyError (ℕ × ℕ)
  | 0, _, _ => .error .fuelOut
  | fuel + 1, c, l =>
    match input[c]? with
    | none => .ok (c, l)
    | some ch =>
      let next := input[c + 1]?
      if ch = '\n' ∧ sn = false then skipLoop input fn sn fuel (c + 1) (l + 1)
      else if ch = '/' ∧ next = some '*' then
        match blockLoop input fn (input.length + 1) (c + 2) l with
        | .error e => .error e
        | .ok (c', l') => skipLoop input fn sn fuel c' l'
      else if ch = '/' ∧ next = some '/' then
        match lineLoop input (input.length + 1) (c + 2) l with
        | .error e => .error e
        | .ok (c', l', true) => skipLoop input fn sn fuel c' l'
        | .ok (c', l', false) => .ok (c', l')
      else if ch ≠ ' ' ∧ ch ≠ '\t' then .ok (c, l)
      else skipLoop input fn sn fuel (c + 1) l

/-- `Lexer.skip`. -/
def Lexer.skip (s : Lexer) : Except PyError Lexer :=
  match skipLoop s.source s.filename s.scanNewlines (s.source.length + 1) s.cursor s.line with
  | .error e => .error e
  | .ok (c, l) => .ok { s with cursor := c, line := l }

/-- A digit run of the form `while True: ch = input[cursor]; cursor += 1;
if not (0 <= ch <= 9): break` — returns the cursor after the final
increment (callers subtract one, exactly as the Python does). -/
def digitTail (input : List Char) : ℕ → ℕ → Except PyError ℕ
  | 0, _ => .error .fuelOut
  | fuel + 1, c =>
    match input[c]? with
    | none => .error .indexError
    | some ch =>
      if '0' ≤ ch ∧ ch ≤ '9' then digitTail input fuel (c + 1)
      else .ok (c + 1)

/-- The hex-digit run in `lexZeroNumber`. -/
def hexTail (input : List Char) : ℕ → ℕ → Except PyError ℕ
  | 0, _ => .error .fuelOut
  | fuel + 1, c =>
    match input[c]? with
    | none => .error .indexError
    | some ch =>
      if ('0' ≤ ch ∧ ch ≤ '9') ∨ ('a' ≤ ch ∧ ch ≤ 'f') ∨ ('A' ≤ ch ∧ ch ≤ 'F') then
        hexTail input fuel (c + 1)
      else .ok (c + 1)

/-- The octal-digit run in `lexZeroNumber`. -/
def octTail (input : List Char) : ℕ → ℕ → Except PyError ℕ
  | 0, _ => .error .fuelOut
  | fuel + 1, c =>
    match input[c]? with
    | none => .error .indexError
    | some ch =>
      if '0' ≤ ch ∧ ch ≤ '7' then octTail input fuel (c + 1)
      else .ok (c + 1)

/-- `Lexer.lexExponent` (lines 211-234): recognise `(e|E)(+|-)?digits`,
raising `ParseError("Missing exponent")` when the digits are missing.
Returns the new cursor and whether an exponent was found.  The very
first read `input[self.cursor]` is unguarded. -/
def lexExponent (input : List Char) (fn : String) (line c : ℕ) :
    Except PyError (ℕ × Bool) := do
  let next ← charAt input c
  if next = 'e' ∨ next = 'E' then do
    let c := c + 1
    let ch ← charAt input c
    let c := c + 1
    let (ch, c) ←
      if ch = '+' ∨ ch = '-' then do
        let ch' ← charAt input c
        pure (ch', c + 1)
      else pure (ch, c)
    if ch < '0' ∨ '9' < ch then
      .error (.parseError "Missing exponent" fn line)
    else do
      let c' ← digitTail input (input.length + 1) c
      .ok (c' - 1, true)
  else .ok (c, false)

/-- The scanning loop of `Lexer.lexNumber` (lines 287-297): digits with
at most one embedded `.`; returns the cursor after the final increment
and the `floating` flag. -/
def numLoop (input : List Char) : ℕ → ℕ → Bool → Except PyError (ℕ × Bool)
  | 0, _, _ => .error .fuelOut
  | fuel + 1, c, floating =>
    match input[c]? with
    | none => .error .indexError
    | some ch =>
      if ch = '.' ∧ floating = false then
        match input[c + 1]? with
        | none => .error .indexError
        | some ch₂ =>
          if '0' ≤ ch₂ ∧ ch₂ ≤ '9' then numLoop input fuel (c + 2) true
          else .ok (c + 2, true)
      else
        if '0' ≤ ch ∧ ch ≤ '9' then numLoop input fuel (c + 1) floating
        else .ok (c + 1, floating)

/-- The identifier loop of `Lexer.lexIdent` (lines 432-442): a maximal
run of letters, digits, `$`, `_`; an `IndexError` at end of input is
caught (`self.cursor += 1; pass`).  Returns the cursor before the
common `self.cursor -= 1`. -/
def identLoop (input : List Char) : ℕ → ℕ → Except PyError ℕ
  | 0, _ => .error .fuelOut
  | fuel + 1, c =>
    match input[c]? with
    | none => .ok (c + 1)
    | some ch =>
      if ('a' ≤ ch ∧ ch ≤ 'z') ∨ ('A' ≤ ch ∧ ch ≤ 'Z') ∨ ('0' ≤ ch ∧ ch ≤ '9')
          ∨ ch = '$' ∨ ch = '_' then
        identLoop input fuel (c + 1)
      else .ok (c + 1)

/-- The scanning loop of `Lexer.lexString` (lines 339-347): consume up
to the matching delimiter, skipping the character after each `\` and
recording whether any escape occurred.  Every read is unguarded, so an
unterminated string raises a bare `IndexError`. -/
def stringLoop (input : List Char) (delim : Char) :
    ℕ → ℕ → Bool → Except PyError (ℕ × Bool)
  | 0, _, _ => .error .fuelOut
  | fuel + 1, c, esc =>
    match input[c]? with
    | none => .error .indexError
    | some ch =>
      if ch = delim then .ok (c + 1, esc)
      else if ch = '\\' then stringLoop input delim fuel (c + 2) true
      else stringLoop input delim fuel (c + 1) esc

/-- The character-class loop of `Lexer.lexRegExp` (lines 371-382):
consume up to the matching `]`, skipping the character after each `\`;
end of input raises `ParseError("Unterminated character class")`.
`ch` is the last character read by the surrounding loop. -/
def classLoop (input : List Char) (fn : String) (line : ℕ) :
    ℕ → Char → ℕ → Except PyError ℕ
  | 0, _, _ => .error .fuelOut
  | fuel + 1, ch, c =>
    let c := if ch = '\\' then c + 1 else c
    match input[c]? with
    | none => .error (.parseError "Unterminated character class" fn line)
    | some ch' =>
      if ch' = ']' then .ok (c + 1)
      else classLoop input fn line fuel ch' (c + 1)

/-- The main loop of `Lexer.lexRegExp` (lines 360-385): scan to the
first unescaped `/` outside a character class; end of input raises
`ParseError("Unterminated regex")`.  Returns the cursor just past the
closing `/`. -/
def regexLoop (input : List Char) (fn : String) (line : ℕ) :
    ℕ → ℕ → Except PyError ℕ
  | 0, _ => .error .fuelOut
  | fuel + 1, c =>
    match input[c]? with
    | none => .error (.parseError "Unterminated regex" fn line)
    | some ch =>
      if ch = '\\' then regexLoop input fn line fuel (c + 2)
      else if ch = '[' then
        match classLoop input fn line (input.length + 1) ch (c + 1) with
        | .error e => .error e
        | .ok c' => regexLoop input fn line fuel c'
      else if ch = '/' then .ok (c + 1)
      else regexLoop input fn line fuel (c + 1)

/-- The flags loop of `Lexer.lexRegExp` (lines 387-391): a maximal run
of lowercase letters; the read is unguarded, so flags running to the end
of input raise a bare `IndexError`.  Returns the cursor after the final
increment. -/
def flagsLoop (input : List Char) : ℕ → ℕ → Except PyError ℕ
  | 0, _ => .error .fuelOut
  | fuel + 1, c =>
    match input[c]? with
    | none => .error .indexError
    | some ch =>
      if 'a' ≤ ch ∧ ch ≤ 'z' then flagsLoop input fuel (c + 1)
      else .ok (c + 1)

/-- The greedy operator-extension loop of `Lexer.lexOp` (lines 402-408):
extend while `op + next` is still a key of `operatorNames`.  The read is
unguarded. -/
def opLoop (input : List Char) : ℕ → ℕ → String → Except PyError (ℕ × String)
  | 0, _, _ => .error .fuelOut
  | fuel + 1, c, op =>
    match input[c]? with
    | none => .error .indexError
    | some next =>
      if (operatorNames.lookup (op.push next)).isSome then
        opLoop input fuel (c + 1) (op.push next)
      else .ok (c, op)

/-- `Lexer.lexZeroNumber` (lines 237-278).  The `0.`, hex, and octal
branches end in calls to `parseFloat`/`parseInt` — names that are
undefined in the module — so they raise `NameError`; only the bare-zero
branch (`else`) completes, with value `0`. -/
def lexZeroNumber (s : Lexer) : Except PyError Lexer :=
  match s.tokens s.tokenIndex with
  | none => .error .attributeError
  | some tk => do
    let input := s.source
    let ch ← charAt input s.cursor
    let c := s.cursor + 1
    if ch = '.' then do
      let c' ← digitTail input (input.length + 1) c
      let _ ← lexExponent input s.filename s.line (c' - 1)
      .error (.nameError "parseFloat")
    else if ch = 'x' ∨ ch = 'X' then do
      let _ ← hexTail input (input.length + 1) c
      .error (.nameError "parseInt")
    else if '0' ≤ ch ∧ ch ≤ '7' then do
      let _ ← octTail input (input.length + 1) c
      .error (.nameError "parseInt")
    else do
      let c := c - 1
      let (c, _) ← lexExponent input s.filename s.line c
      .ok (s.finishTok c { tk with type := some "number", value := some (.vInt 0) })

/-- `Lexer.lexNumber` (lines 281-307): digits with at most one `.` and
an optional exponent; the value is `int(segment)` when neither a dot nor
an exponent occurred, `float(segment)` otherwise. -/
def lexNumber (s : Lexer) : Except PyError Lexer :=
  match s.tokens s.tokenIndex with
  | none => .error .attributeError
  | some tk => do
    let input := s.source
    let (c', floating) ← numLoop input (input.length + 1) s.cursor false
    let (c, exponent) ← lexExponent input s.filename s.line (c' - 1)
    let st ← attr tk.start
    let segment := pySlice input st c
    let v ←
      if floating = true ∨ exponent = true then do
        let q ← pyFloat segment
        pure (JSValue.vFloat q)
      else do
        let n ← pyInt segment
        pure (JSValue.vInt n)
    .ok (s.finishTok c { tk with type := some "number", value := some v })

/-- `Lexer.lexDot` (lines 310-329): a digit after the `.` makes a float
literal, otherwise the token is the `dot` punctuator. -/
def lexDot (s : Lexer) : Except PyError Lexer :=
  match s.tokens s.tokenIndex with
  | none => .error .attributeError
  | some tk => do
    let input := s.source
    let next ← charAt input s.cursor
    if '0' ≤ next ∧ next ≤ '9' then do
      let c' ← digitTail input (input.length + 1) s.cursor
      let (c, _) ← lexExponent input s.filename s.line (c' - 1)
      let st ← attr tk.start
      let q ← pyFloat (pySlice input st c)
      .ok (s.finishTok c { tk with type := some "number", value := some (.vFloat q) })
    else
      .ok (s.finishTok s.cursor { tk with type := some "dot" })

/-- `Lexer.lexString` (lines 332-352): scan to the matching delimiter;
with no escapes the value is the verbatim interior slice, with escapes
the whole quoted slice is fed to `eval`. -/
def lexString (s : Lexer) (ch : Char) : Except PyError Lexer :=
  match s.tokens s.tokenIndex with
  | none => .error .attributeError
  | some tk => do
    let input := s.source
    let delim := ch
    let (c, hasEscapes) ← stringLoop input delim (input.length + 1) s.cursor false
    let st ← attr tk.start
    let v ←
      if hasEscapes = true then pyEval (pySlice input st c)
      else pure (JSValue.vStr (pySlice input (st + 1) (c - 1)))
    .ok (s.finishTok c { tk with type := some "string", value := some v })

/-- `Lexer.lexRegExp` (lines 355-394): scan the pattern and trailing
lowercase flags, then `token.value = eval(input[token.start:cursor])` —
which always raises, since `/pattern/flags` is not a Python
expression. -/
def lexRegExp (s : Lexer) : Except PyError Lexer :=
  match s.tokens s.tokenIndex with
  | none => .error .attributeError
  | some tk => do
    let input := s.source
    let c ← regexLoop input s.filename s.line (input.length + 1) s.cursor
    let c' ← flagsLoop input (input.length + 1) c
    let st ← attr tk.start
    let v ← pyEval (pySlice input st (c' - 1))
    .ok (s.finishTok (c' - 1) { tk with type := some "regexp", value := some v })

/-- `Lexer.lexOp` (lines 397-423): longest-prefix operator matching, the
compound-assignment check, and the unary retagging of `+`/`-` when
`scanOperand` is set. -/
def lexOp (s : Lexer) (ch : Char) : Except PyError Lexer :=
  match s.tokens s.tokenIndex with
  | none => .error .attributeError
  | some tk => do
    let input := s.source
    let (c, op) ← opLoop input (input.length + 1) s.cursor ch.toString
    let ch₂ ← charAt input c
    if ch₂ = '=' ∧ assignOperators.contains op = true then do
      let base ← dictGet operatorNames op
      .ok (s.finishTok (c + 1) { tk with type := some "assign", assignOp := some (some base) })
    else do
      let ty ← dictGet operatorNames op
      let ty :=
        if s.scanOperand = true then
          if ty = "plus" then "unary_plus"
          else if ty = "minus" then "unary_minus"
          else ty
        else ty
      .ok (s.finishTok c { tk with type := some ty, assignOp := some none })

/-- `Lexer.lexIdent` (lines 428-452): a maximal identifier run; keywords
become their own token type, everything else is `identifier` with the
raw text as value. -/
def lexIdent (s : Lexer) : Except PyError Lexer :=
  match s.tokens s.tokenIndex with
  | none => .error .attributeError
  | some tk => do
    let input := s.source
    let c' ← identLoop input (input.length + 1) s.cursor
    let c := c' - 1
    let st ← attr tk.start
    let identifier := pySlice input st c
    if keywords.contains (String.mk identifier) = true then
      .ok (s.finishTok c { tk with type := some (String.mk identifier) })
    else
      .ok (s.finishTok c
        { tk with type := some "identifier", value := some (.vStr identifier) })

/-- The first-character dispatch inside `Lexer.get` (lines 482-508):
identifier/keyword, regex (only in operand position), dot, newline (only
in newline-sensitive mode, bumping the line counter), operator, number,
string — anything else raises `ParseError("Illegal token: ...")`. -/
def dispatchStep (ch : Char) (s : Lexer) : Except PyError Lexer :=
  if ('a' ≤ ch ∧ ch ≤ 'z') ∨ ('A' ≤ ch ∧ ch ≤ 'Z') ∨ ch = '$' ∨ ch = '_' then
    lexIdent s
  else if s.scanOperand = true ∧ ch = '/' then
    lexRegExp s
  else if ch = '.' then
    lexDot s
  else if s.scanNewlines = true ∧ ch = '\n' then
    .ok { s.updTok (fun tk => { tk with type := some "newline" }) with line := s.line + 1 }
  else if (operatorNames.lookup ch.toString).isSome then
    lexOp s ch
  else if '1' ≤ ch ∧ ch ≤ '9' then
    lexNumber s
  else if ch = '0' then
    lexZeroNumber s
  else if ch = '"' ∨ ch = '\'' then
    lexString s ch
  else
    .error (.parseError ("Illegal token: " ++ ch.toString) s.filename s.line)

/-- The replay loop at the top of `Lexer.get` (lines 459-464): while
lookahead is pending, advance one ring slot and return that token's type
unless it is a `newline` being suppressed outside newline-sensitive
mode.  The first argument is the current `lookahead` value; `none` means
the loop fell through to a fresh scan. -/
def getLoop : ℕ → Lexer → Except PyError (Option String × Lexer)
  | 0, s => .ok (none, s)
  | n + 1, s =>
    match s.tokens (s.tokenIndex + 1) with
    | none => .error .keyError
    | some tok =>
      match tok.type with
      | none => .error .attributeError
      | some ty =>
        if ty ≠ "newline" ∨ s.scanNewlines = true then
          .ok (some ty, { s with lookahead := n, tokenIndex := s.tokenIndex + 1 })
        else getLoop n { s with lookahead := n, tokenIndex := s.tokenIndex + 1 }

/-- The fresh-scan tail of `Lexer.get` (lines 466-511), entered after
`skip` with no pending lookahead: advance `tokenIndex` one slot, place a
fresh `Token()` there, emit the span-less `end` token at end of input,
and otherwise record `start`/`line`, consume the first character,
dispatch on it, and record `end` (`tokEnd`).  Each intermediate state is
named; `s₄` combines the slot allocation with the `start`/`line`
assignment and the cursor bump, whose net effect on the state is a
single token write and a cursor increment. -/
def freshScan (s₁ : Lexer) : Except PyError (String × Lexer) :=
  if s₁.cursor = s₁.source.length then
    .ok ("end",
      { s₁ with
          tokenIndex := s₁.tokenIndex + 1
          tokens := Function.update s₁.tokens (s₁.tokenIndex + 1)
            (some { type := some "end" }) })
  else do
    let ch ← charAt s₁.source s₁.cursor
    let s₄ : Lexer :=
      { s₁ with
          tokenIndex := s₁.tokenIndex + 1
          tokens := Function.update s₁.tokens (s₁.tokenIndex + 1)
            (some { start := some s₁.cursor, line := some s₁.line })
          cursor := s₁.cursor + 1 }
    let s₅ ← dispatchStep ch s₄
    let s₆ := s₅.updTok (fun tk => { tk with tokEnd := some s₅.cursor })
    match (s₆.tokens s₆.tokenIndex).bind Token.type with
    | some ty => .ok (ty, s₆)
    | none => .error .attributeError

/-- `Lexer.get` (lines 458-511): replay buffered lookahead, or skip
whitespace/comments and scan a fresh token. -/
def Lexer.get (s : Lexer) : Except PyError (String × Lexer) := do
  let (r, s) ← getLoop s.lookahead s
  match r with
  | some ty => .ok (ty, s)
  | none => do
    let s ← s.skip
    freshScan s

/-- `Lexer.unget` (lines 514-520): bump `lookahead`, panic when it
reaches 4, otherwise rewind `tokenIndex` one slot. -/
def Lexer.unget (s : Lexer) : Except PyError Lexer :=
  if s.lookahead + 1 = 4 then
    .error (.parseError "PANIC: too much lookahead!" s.filename s.line)
  else
    .ok { s with lookahead := s.lookahead + 1, tokenIndex := s.tokenIndex - 1 }

/-- `Lexer.peek` (lines 132-143): inspect the buffered slot at
`tokenIndex + lookahead` (with the newline substitution), or perform a
real `get` followed by `unget`.  `getattr(next, "type", None)` can be
`None`, hence the `Option String`. -/
def Lexer.peek (s : Lexer) : Except PyError (Option String × Lexer) :=
  if s.lookahead ≠ 0 then
    let next := s.tokens ⟨(s.tokenIndex.val + s.lookahead) % 4, Nat.mod_lt _ (by omega)⟩
    let tokenType : Option String :=
      if s.scanNewlines = true ∧ next.bind Token.line ≠ some s.line then some "newline"
      else next.bind Token.type
    .ok (tokenType, s)
  else do
    let (t, s₁) ← s.get
    let s₂ ← s₁.unget
    .ok (some t, s₂)

/-- `Lexer.peekOnSameLine` (lines 146-150): force newline-sensitive
mode, peek, then set `scanNewlines` to `False`. -/
def Lexer.peekOnSameLine (s : Lexer) : Except PyError (Option String × Lexer) := do
  let (t, s₁) ← Lexer.peek { s with scanNewlines := true }
  .ok (t, { s₁ with scanNewlines := false })

/-- `Lexer.match` (lines 121-122): `self.get() == tokenType or
self.unget()` — consume on success, push back (returning a falsy value)
on failure. -/
def Lexer.matchTok (s : Lexer) (tokenType : String) : Except PyError (Bool × Lexer) := do
  let (t, s₁) ← s.get
  if t = tokenType then .ok (true, s₁)
  else do
    let s₂ ← s₁.unget
    .ok (false, s₂)

/-- `Lexer.mustMatch` (lines 125-129): like `match`, but a failed match
raises `ParseError("Missing <type>")`; on success return `self.token`. -/
def Lexer.mustMatch (s : Lexer) (tokenType : String) :
    Except PyError (Option Token × Lexer) := do
  let (b, s₁) ← s.matchTok tokenType
  if b = true then .ok (s₁.tokens s₁.tokenIndex, s₁)
  else .error (.parseError ("Missing " ++ tokenType) s₁.filename s₁.line)

/-! ## Basic facts about indexing and the scanning loops -/

theorem getElem?_some_lt {l : List Char} {i : ℕ} {c : Char} (h : l[i]? = some c) :
    i < l.length := by
  by_contra hc
  rw [List.getElem?_eq_none_iff.mpr (by omega)] at h
  exact Option.noConfusion h

theorem charAt_ok {l : List Char} {i : ℕ} {c : Char} (h : charAt l i = .ok c) :
    l[i]? = some c ∧ i < l.length := by
  unfold charAt at h
  cases hg : l[i]? with
  | none => rw [hg] at h; exact Except.noConfusion h
  | some ch =>
    rw [hg] at h
    cases h
    exact ⟨rfl, getElem?_some_lt hg⟩

theorem digitTail_bounds {input : List Char} :
    ∀ {fuel c c'}, digitTail input fuel c = .ok c' → c < c' ∧ c' ≤ input.length := by
  intro fuel
  induction fuel with
  | zero => intro c c' h; exact Except.noConfusion h
  | succ n ih =>
    intro c c' h
    rw [digitTail] at h
    cases hg : input[c]? with
    | none => rw [hg] at h; exact Except.noConfusion h
    | some ch =>
      simp only [hg] at h
      by_cases hd : '0' ≤ ch ∧ ch ≤ '9'
      · rw [if_pos hd] at h
        have := ih h
        omega
      · rw [if_neg hd] at h
        cases h
        have := getElem?_some_lt hg
        omega

theorem hexTail_bounds {input : List Char} :
    ∀ {fuel c c'}, hexTail input fuel c = .ok c' → c < c' ∧ c' ≤ input.length := by
  intro fuel
  induction fuel with
  | zero => intro c c' h; exact Except.noConfusion h
  | succ n ih =>
    intro c c' h
    rw [hexTail] at h
    cases hg : input[c]? with
    | none => rw [hg] at h; exact Except.noConfusion h
    | some ch =>
      simp only [hg] at h
      by_cases hd : ('0' ≤ ch ∧ ch ≤ '9') ∨ ('a' ≤ ch ∧ ch ≤ 'f') ∨ ('A' ≤ ch ∧ ch ≤ 'F')
      · rw [if_pos hd] at h
        have := ih h
        omega
      · rw [if_neg hd] at h
        cases h
        have := getElem?_some_lt hg
        omega

theorem octTail_bounds {input : List Char} :
    ∀ {fuel c c'}, octTail input fuel c = .ok c' → c < c' ∧ c' ≤ input.length := by
  intro fuel
  induction fuel with
  | zero => intro c c' h; exact Except.noConfusion h
  | succ n ih =>
    intro c c' h
    rw [octTail] at h
    cases hg : input[c]? with
    | none => rw [hg] at h; exact Except.noConfusion h
    | some ch =>
      simp only [hg] at h
      by_cases hd : '0' ≤ ch ∧ ch ≤ '7'
      · rw [if_pos hd] at h
        have := ih h
        omega
      · rw [if_neg hd] at h
        cases h
        have := getElem?_some_lt hg
        omega

theorem numLoop_bounds {input : List Char} :
    ∀ {fuel c fl c' fl'}, numLoop input fuel c fl = .ok (c', fl') →
      c < c' ∧ c' ≤ input.length := by
  intro fuel
  induction fuel with
  | zero => intro c fl c' fl' h; exact Except.noConfusion h
  | succ n ih =>
    intro c fl c' fl' h
    rw [numLoop] at h
    cases hg : input[c]? with
    | none => rw [hg] at h; exact Except.noConfusion h
    | some ch =>
      simp only [hg] at h
      by_cases hdot : ch = '.' ∧ fl = false
      · rw [if_pos hdot] at h
        cases hg2 : input[c + 1]? with
        | none => rw [hg2] at h; exact Except.noConfusion h
        | some ch₂ =>
          simp only [hg2] at h
          by_cases hd : '0' ≤ ch₂ ∧ ch₂ ≤ '9'
          · rw [if_pos hd] at h
            have := ih h
            omega
          · rw [if_neg hd] at h
            cases h
            have := getElem?_some_lt hg2
            omega
      · rw [if_neg hdot] at h
        by_cases hd : '0' ≤ ch ∧ ch ≤ '9'
        · rw [if_pos hd] at h
          have := ih h
          omega
        · rw [if_neg hd] at h
          cases h
          have := getElem?_some_lt hg
          omega

theorem identLoop_bounds {input : List Char} :
    ∀ {fuel c c'}, c ≤ input.length → identLoop input fuel c = .ok c' →
      c < c' ∧ c' ≤ input.length + 1 := by
  intro fuel
  induction fuel with
  | zero => intro c c' _ h; exact Except.noConfusion h
  | succ n ih =>
    intro c c' hc h
    rw [identLoop] at h
    cases hg : input[c]? with
    | none =>
      rw [hg] at h
      cases h
      omega
    | some ch =>
      simp only [hg] at h
      have hlt := getElem?_some_lt hg
      by_cases hd : ('a' ≤ ch ∧ ch ≤ 'z') ∨ ('A' ≤ ch ∧ ch ≤ 'Z') ∨ ('0' ≤ ch ∧ ch ≤ '9')
          ∨ ch = '$' ∨ ch = '_'
      · rw [if_pos hd] at h
        have := ih (by omega) h
        omega
      · rw [if_neg hd] at h
        cases h
        omega

theorem stringLoop_bounds {input : List Char} {delim : Char} :
    ∀ {fuel c esc c' esc'}, stringLoop input delim fuel c esc = .ok (c', esc') →
      c < c' ∧ c' ≤ input.length := by
  intro fuel
  induction fuel with
  | zero => intro c esc c' esc' h; exact Except.noConfusion h
  | succ n ih =>
    intro c esc c' esc' h
    rw [stringLoop] at h
    cases hg : input[c]? with
    | none => rw [hg] at h; exact Except.noConfusion h
    | some ch =>
      simp only [hg] at h
      have hlt := getElem?_some_lt hg
      by_cases he : ch = delim
      · rw [if_pos he] at h
        cases h
        omega
      · rw [if_neg he] at h
        by_cases hb : ch = '\\'
        · rw [if_pos hb] at h
          have := ih h
          omega
        · rw [if_neg hb] at h
          have := ih h
          omega

theorem classLoop_bounds {input : List Char} {fn : String} {line : ℕ} :
    ∀ {fuel ch c c'}, classLoop input fn line fuel ch c = .ok c' →
      c < c' ∧ c' ≤ input.length := by
  intro fuel
  induction fuel with
  | zero => intro ch c c' h; exact Except.noConfusion h
  | succ n ih =>
    intro ch c c' h
    rw [classLoop] at h
    by_cases hb : ch = '\\'
    · simp only [if_pos hb] at h
      cases hg : input[c + 1]? with
      | none => rw [hg] at h; exact Except.noConfusion h
      | some ch' =>
        simp only [hg] at h
        have hlt := getElem?_some_lt hg
        by_cases hk : ch' = ']'
        · rw [if_pos hk] at h
          cases h
          omega
        · rw [if_neg hk] at h
          have := ih h
          omega
    · simp only [if_neg hb] at h
      cases hg : input[c]? with
      | none => rw [hg] at h; exact Except.noConfusion h
      | some ch' =>
        simp only [hg] at h
        have hlt := getElem?_some_lt hg
        by_cases hk : ch' = ']'
        · rw [if_pos hk] at h
          cases h
          omega
        · rw [if_neg hk] at h
          have := ih h
          omega

theorem regexLoop_bounds {input : List Char} {fn : String} {line : ℕ} :
    ∀ {fuel c c'}, regexLoop input fn line fuel c = .ok c' →
      c < c' ∧ c' ≤ input.length := by
  intro fuel
  induction fuel with
  | zero => intro c c' h; exact Except.noConfusion h
  | succ n ih =>
    intro c c' h
    rw [regexLoop] at h
    cases hg : input[c]? with
    | none => rw [hg] at h; exact Except.noConfusion h
    | some ch =>
      simp only [hg] at h
      have hlt := getElem?_some_lt hg
      by_cases hb : ch = '\\'
      · rw [if_pos hb] at h
        have := ih h
        omega
      · rw [if_neg hb] at h
        by_cases hcl : ch = '['
        · rw [if_pos hcl] at h
          cases hc : classLoop input fn line (input.length + 1) ch (c + 1) with
          | error e => rw [hc] at h; exact Except.noConfusion h
          | ok c₂ =>
            simp only [hc] at h
            have h₁ := classLoop_bounds hc
            have := ih h
            omega
        · rw [if_neg hcl] at h
          by_cases hs : ch = '/'
          · rw [if_pos hs] at h
            cases h
            omega
          · rw [if_neg hs] at h
            have := ih h
            omega

theorem flagsLoop_bounds {input : List Char} :
    ∀ {fuel c c'}, flagsLoop input fuel c = .ok c' → c < c' ∧ c' ≤ input.length := by
  intro fuel
  induction fuel with
  | zero => intro c c' h; exact Except.noConfusion h
  | succ n ih =>
    intro c c' h
    rw [flagsLoop] at h
    cases hg : input[c]? with
    | none => rw [hg] at h; exact Except.noConfusion h
    | some ch =>
      simp only [hg] at h
      by_cases hd : 'a' ≤ ch ∧ ch ≤ 'z'
      · rw [if_pos hd] at h
        have := ih h
        omega
      · rw [if_neg hd] at h
        cases h
        have := getElem?_some_lt hg
        omega

theorem opLoop_bounds {input : List Char} :
    ∀ {fuel c op c' op'}, opLoop input fuel c op = .ok (c', op') →
      c ≤ c' ∧ c' < input.length := by
  intro fuel
  induction fuel with
  | zero => intro c op c' op' h; exact Except.noConfusion h
  | succ n ih =>
    intro c op c' op' h
    rw [opLoop] at h
    cases hg : input[c]? with
    | none => rw [hg] at h; exact Except.noConfusion h
    | some next =>
      simp only [hg] at h
      have hlt := getElem?_some_lt hg
      by_cases hd : (operatorNames.lookup (op.push next)).isSome = true
      · rw [if_pos hd] at h
        have := ih h
        omega
      · rw [if_neg hd] at h
        cases h
        omega

theorem blockLoop_bounds {input : List Char} {fn : String} :
    ∀ {fuel c l c' l'}, blockLoop input fn fuel c l = .ok (c', l') →
      c < c' ∧ c' ≤ input.length := by
  intro fuel
  induction fuel with
  | zero => intro c l c' l' h; exact Except.noConfusion h
  | succ n ih =>
    intro c l c' l' h
    rw [blockLoop] at h
    cases hg : input[c]? with
    | none => rw [hg] at h; exact Except.noConfusion h
    | some ch =>
      simp only [hg] at h
      by_cases hs : ch = '*'
      · rw [if_pos hs] at h
        cases hg2 : input[c + 1]? with
        | none => rw [hg2] at h; exact Except.noConfusion h
        | some next =>
          simp only [hg2] at h
          have hlt2 := getElem?_some_lt hg2
          by_cases he : next = '/'
          · rw [if_pos he] at h
            cases h
            omega
          · rw [if_neg he] at h
            have := ih h
            omega
      · rw [if_neg hs] at h
        by_cases hn : ch = '\n'
        · rw [if_pos hn] at h
          have := ih h
          omega
        · rw [if_neg hn] at h
          have := ih h
          omega

theorem lineLoop_bounds {input : List Char} :
    ∀ {fuel c l c' l' b}, lineLoop input fuel c l = .ok (c', l', b) →
      c ≤ c' ∧ (c ≤ input.length → c' ≤ input.length) := by
  intro fuel
  induction fuel with
  | zero => intro c l c' l' b h; exact Except.noConfusion h
  | succ n ih =>
    intro c l c' l' b h
    rw [lineLoop] at h
    cases hg : input[c]? with
    | none =>
      rw [hg] at h
      cases h
      omega
    | some ch =>
      simp only [hg] at h
      have hlt := getElem?_some_lt hg
      by_cases hn : ch = '\n'
      · rw [if_pos hn] at h
        cases h
        omega
      · rw [if_neg hn] at h
        have := ih h
        omega

theorem skipLoop_mono {input : List Char} {fn : String} {sn : Bool} :
    ∀ {fuel c l c' l'}, skipLoop input fn sn fuel c l = .ok (c', l') → c ≤ c' := by
  intro fuel
  induction fuel with
  | zero => intro c l c' l' h; exact Except.noConfusion h
  | succ n ih =>
    intro c l c' l' h
    rw [skipLoop] at h
    cases hg : input[c]? with
    | none =>
      rw [hg] at h
      cases h
      omega
    | some ch =>
      simp only [hg] at h
      by_cases h1 : ch = '\n' ∧ sn = false
      · rw [if_pos h1] at h
        have := ih h
        omega
      · rw [if_neg h1] at h
        by_cases h2 : ch = '/' ∧ input[c + 1]? = some '*'
        · rw [if_pos h2] at h
          cases hb : blockLoop input fn (input.length + 1) (c + 2) l with
          | error e => rw [hb] at h; exact Except.noConfusion h
          | ok p =>
            obtain ⟨c₂, l₂⟩ := p
            simp only [hb] at h
            have h₁ := blockLoop_bounds hb
            have := ih h
            omega
        · rw [if_neg h2] at h
          by_cases h3 : ch = '/' ∧ input[c + 1]? = some '/'
          · rw [if_pos h3] at h
            cases hb : lineLoop input (input.length + 1) (c + 2) l with
            | error e => rw [hb] at h; exact Except.noConfusion h
            | ok p =>
              obtain ⟨c₂, l₂, bb⟩ := p
              simp only [hb] at h
              have h₁ := lineLoop_bounds hb
              cases bb with
              | true =>
                simp only at h
                have := ih h
                omega
              | false =>
                simp only at h
                cases h
                omega
          · rw [if_neg h3] at h
            by_cases h4 : ch ≠ ' ' ∧ ch ≠ '\t'
            · rw [if_pos h4] at h
              cases h
              omega
            · rw [if_neg h4] at h
              have := ih h
              omega

/-! ## Plumbing for the `Except` monad and attribute reads -/

theorem exc_bind_ok {α β : Type} {x : Except PyError α} {f : α → Except PyError β} {b : β} :
    (x >>= f) = .ok b ↔ ∃ a, x = .ok a ∧ f a = .ok b := by
  cases x with
  | error e =>
    constructor
    · intro h; exact Except.noConfusion h
    · rintro ⟨a, ha, -⟩; exact Except.noConfusion ha
  | ok a =>
    constructor
    · intro h; exact ⟨a, rfl, h⟩
    · rintro ⟨a', ha, hf⟩
      cases ha
      exact hf

theorem exc_pure_ok {α : Type} {a b : α} :
    (pure a : Except PyError α) = .ok b ↔ a = b := by
  constructor
  · intro h; cases h; rfl
  · intro h; cases h; rfl

theorem attr_ok {α : Type} {o : Option α} {v : α} (h : attr o = .ok v) : o = some v := by
  unfold attr at h
  cases o with
  | none => exact Except.noConfusion h
  | some w => cases h; rfl

theorem lexExponent_bounds {input : List Char} {fn : String} {line c c' : ℕ} {b : Bool}
    (h : lexExponent input fn line c = .ok (c', b)) :
    c ≤ c' ∧ c' ≤ input.length ∧ (b = false → c' = c) := by
  unfold lexExponent at h
  rw [exc_bind_ok] at h
  obtain ⟨next, hc1, h⟩ := h
  have hn1 := charAt_ok hc1
  by_cases he : next = 'e' ∨ next = 'E'
  · rw [if_pos he] at h
    rw [exc_bind_ok] at h
    obtain ⟨ch, hc2, h⟩ := h
    simp only [] at h
    by_cases hs : ch = '+' ∨ ch = '-'
    · rw [if_pos hs] at h
      rw [exc_bind_ok] at h
      obtain ⟨ch', hc4, h⟩ := h
      rw [exc_bind_ok] at h
      obtain ⟨y, hy, h⟩ := h
      rw [exc_pure_ok] at hy
      cases hy
      simp only [] at h
      by_cases hd : ch' < '0' ∨ '9' < ch'
      · rw [if_pos hd] at h
        exact Except.noConfusion h
      · rw [if_neg hd] at h
        rw [exc_bind_ok] at h
        obtain ⟨r, hdt, h⟩ := h
        cases h
        have := digitTail_bounds hdt
        exact ⟨by omega, by omega, fun hb => absurd hb (by decide)⟩
    · rw [if_neg hs] at h
      rw [exc_bind_ok] at h
      obtain ⟨y, hy, h⟩ := h
      rw [exc_pure_ok] at hy
      cases hy
      simp only [] at h
      by_cases hd : ch < '0' ∨ '9' < ch
      · rw [if_pos hd] at h
        exact Except.noConfusion h
      · rw [if_neg hd] at h
        rw [exc_bind_ok] at h
        obtain ⟨r, hdt, h⟩ := h
        cases h
        have := digitTail_bounds hdt
        exact ⟨by omega, by omega, fun hb => absurd hb (by decide)⟩
  · rw [if_neg he] at h
    cases h
    exact ⟨le_refl _, by omega, fun _ => rfl⟩

theorem skip_ok {s s' : Lexer} (h : s.skip = .ok s') :
    s'.source = s.source ∧ s'.filename = s.filename ∧ s'.tokens = s.tokens ∧
    s'.tokenIndex = s.tokenIndex ∧ s'.lookahead = s.lookahead ∧
    s'.scanNewlines = s.scanNewlines ∧ s'.scanOperand = s.scanOperand ∧
    s.cursor ≤ s'.cursor := by
  unfold Lexer.skip at h
  cases hs : skipLoop s.source s.filename s.scanNewlines (s.source.length + 1) s.cursor s.line with
  | error e => rw [hs] at h; exact Except.noConfusion h
  | ok p =>
    obtain ⟨c, l⟩ := p
    simp only [hs] at h
    cases h
    exact ⟨rfl, rfl, rfl, rfl, rfl, rfl, rfl, skipLoop_mono hs⟩

/-! ## A common specification for the token-lexing methods

Every `lex*` method, run from a state whose cursor is in bounds, leaves
all fields except `cursor` and the current ring-buffer slot untouched,
moves the cursor forward but not past the end of the source, preserves
the token's `start`/`line` attributes, and stores a token type that is
neither `newline` nor `end`. -/
def LexSpec (f : Lexer → Except PyError Lexer) : Prop :=
  ∀ s s', s.cursor ≤ s.source.length → f s = .ok s' →
    s'.source = s.source ∧ s'.filename = s.filename ∧ s'.tokenIndex = s.tokenIndex ∧
    s'.lookahead = s.lookahead ∧ s'.scanNewlines = s.scanNewlines ∧
    s'.scanOperand = s.scanOperand ∧ s'.line = s.line ∧
    s.cursor ≤ s'.cursor ∧ s'.cursor ≤ s.source.length ∧
    ∃ tk tk' ty, s.tokens s.tokenIndex = some tk ∧
      s'.tokens = Function.update s.tokens s.tokenIndex (some tk') ∧
      tk'.start = tk.start ∧ tk'.line = tk.line ∧ tk'.type = some ty ∧
      ty ≠ "newline" ∧ ty ≠ "end"

theorem lexDot_spec : LexSpec lexDot := by
  intro s s' hc h
  unfold lexDot at h
  cases hstk : s.tokens s.tokenIndex with
  | none => rw [hstk] at h; exact Except.noConfusion h
  | some tk =>
    simp only [hstk] at h
    rw [exc_bind_ok] at h
    obtain ⟨next, hc1, h⟩ := h
    have hn1 := charAt_ok hc1
    by_cases hd : '0' ≤ next ∧ next ≤ '9'
    · rw [if_pos hd] at h
      rw [exc_bind_ok] at h
      obtain ⟨r, hdt, h⟩ := h
      have hb1 := digitTail_bounds hdt
      rw [exc_bind_ok] at h
      obtain ⟨p, hexp, h⟩ := h
      obtain ⟨c₂, b₂⟩ := p
      have hb2 := lexExponent_bounds hexp
      simp only [] at h
      rw [exc_bind_ok] at h
      obtain ⟨st, hst, h⟩ := h
      rw [exc_bind_ok] at h
      obtain ⟨q, hq, h⟩ := h
      cases h
      refine ⟨rfl, rfl, rfl, rfl, rfl, rfl, rfl, ?_, ?_,
        tk, _, "number", rfl, rfl, rfl, rfl, rfl, by decide, by decide⟩
      · show s.cursor ≤ c₂
        omega
      · show c₂ ≤ s.source.length
        omega
    · rw [if_neg hd] at h
      cases h
      refine ⟨rfl, rfl, rfl, rfl, rfl, rfl, rfl, ?_, ?_,
        tk, _, "dot", rfl, rfl, rfl, rfl, rfl, by decide, by decide⟩
      · show s.cursor ≤ s.cursor
        omega
      · show s.cursor ≤ s.source.length
        omega

theorem dictGet_ok {d : List (String × String)} {k v : String}
    (h : dictGet d k = .ok v) : d.lookup k = some v := by
  unfold dictGet at h
  cases hl : d.lookup k with
  | none => rw [hl] at h; exact Except.noConfusion h
  | some w => rw [hl] at h; cases h; rfl

theorem lookup_mem_values {α β : Type} [BEq α] {l : List (α × β)} {k : α} {v : β}
    (h : List.lookup k l = some v) : v ∈ l.map Prod.snd := by
  induction l with
  | nil => exact Option.noConfusion h
  | cons p tl ih =>
    obtain ⟨a, b⟩ := p
    rw [List.lookup] at h
    cases hk : k == a with
    | true =>
      simp only [hk] at h
      cases h
      exact List.mem_cons_self _ _
    | false =>
      simp only [hk] at h
      exact List.mem_cons_of_mem _ (ih h)

theorem opValues_ok : ∀ v ∈ operatorNames.map Prod.snd, v ≠ "newline" ∧ v ≠ "end" := by
  decide

theorem keywords_ok : ∀ v ∈ keywords, v ≠ "newline" ∧ v ≠ "end" := by
  decide

theorem lexNumber_spec : LexSpec lexNumber := by
  intro s s' hc h
  unfold lexNumber at h
  cases hstk : s.tokens s.tokenIndex with
  | none => rw [hstk] at h; exact Except.noConfusion h
  | some tk =>
    simp only [hstk] at h
    rw [exc_bind_ok] at h
    obtain ⟨p, hnl, h⟩ := h
    obtain ⟨r, fl⟩ := p
    have hb1 := numLoop_bounds hnl
    try simp only [] at h
    rw [exc_bind_ok] at h
    obtain ⟨p2, hexp, h⟩ := h
    obtain ⟨c₂, ex⟩ := p2
    have hb2 := lexExponent_bounds hexp
    try simp only [] at h
    rw [exc_bind_ok] at h
    obtain ⟨st, hst, h⟩ := h
    by_cases hval : fl = true ∨ ex = true
    · rw [if_pos hval] at h
      rw [exc_bind_ok] at h
      obtain ⟨q, hq, h⟩ := h
      rw [exc_bind_ok] at h
      obtain ⟨y, hy, h⟩ := h
      cases h
      refine ⟨rfl, rfl, rfl, rfl, rfl, rfl, rfl, ?_, ?_,
        tk, _, "number", rfl, rfl, rfl, rfl, rfl, by decide, by decide⟩
      · show s.cursor ≤ c₂
        omega
      · show c₂ ≤ s.source.length
        omega
    · rw [if_neg hval] at h
      rw [exc_bind_ok] at h
      obtain ⟨n₀, hn₀, h⟩ := h
      rw [exc_bind_ok] at h
      obtain ⟨y, hy, h⟩ := h
      cases h
      refine ⟨rfl, rfl, rfl, rfl, rfl, rfl, rfl, ?_, ?_,
        tk, _, "number", rfl, rfl, rfl, rfl, rfl, by decide, by decide⟩
      · show s.cursor ≤ c₂
        omega
      · show c₂ ≤ s.source.length
        omega

theorem lexZeroNumber_spec : LexSpec lexZeroNumber := by
  intro s s' hc h
  unfold lexZeroNumber at h
  cases hstk : s.tokens s.tokenIndex with
  | none => rw [hstk] at h; exact Except.noConfusion h
  | some tk =>
    simp only [hstk] at h
    rw [exc_bind_ok] at h
    obtain ⟨ch, hc1, h⟩ := h
    have hn1 := charAt_ok hc1
    by_cases hdot : ch = '.'
    · rw [if_pos hdot] at h
      rw [exc_bind_ok] at h
      obtain ⟨r, hdt, h⟩ := h
      rw [exc_bind_ok] at h
      obtain ⟨p, hexp, h⟩ := h
      exact Except.noConfusion h
    · rw [if_neg hdot] at h
      by_cases hx : ch = 'x' ∨ ch = 'X'
      · rw [if_pos hx] at h
        rw [exc_bind_ok] at h
        obtain ⟨r, hht, h⟩ := h
        exact Except.noConfusion h
      · rw [if_neg hx] at h
        by_cases ho : '0' ≤ ch ∧ ch ≤ '7'
        · rw [if_pos ho] at h
          rw [exc_bind_ok] at h
          obtain ⟨r, hot, h⟩ := h
          exact Except.noConfusion h
        · rw [if_neg ho] at h
          try simp only [] at h
          rw [exc_bind_ok] at h
          obtain ⟨p, hexp, h⟩ := h
          obtain ⟨c₂, b₂⟩ := p
          have hb2 := lexExponent_bounds hexp
          try simp only [] at h
          cases h
          refine ⟨rfl, rfl, rfl, rfl, rfl, rfl, rfl, ?_, ?_,
            tk, _, "number", rfl, rfl, rfl, rfl, rfl, by decide, by decide⟩
          · show s.cursor ≤ c₂
            omega
          · show c₂ ≤ s.source.length
            omega

theorem lexString_spec (ch : Char) : LexSpec (fun s => lexString s ch) := by
  intro s s' hc h
  have h' : lexString s ch = .ok s' := h
  clear h
  unfold lexString at h'
  cases hstk : s.tokens s.tokenIndex with
  | none => rw [hstk] at h'; exact Except.noConfusion h'
  | some tk =>
    simp only [hstk] at h'
    rw [exc_bind_ok] at h'
    obtain ⟨p, hsl, h⟩ := h'
    obtain ⟨c₂, esc⟩ := p
    have hb1 := stringLoop_bounds hsl
    try simp only [] at h
    rw [exc_bind_ok] at h
    obtain ⟨st, hst, h⟩ := h
    by_cases hesc : esc = true
    · rw [if_pos hesc] at h
      rw [exc_bind_ok] at h
      obtain ⟨v, hv, h⟩ := h
      cases h
      refine ⟨rfl, rfl, rfl, rfl, rfl, rfl, rfl, ?_, ?_,
        tk, _, "string", rfl, rfl, rfl, rfl, rfl, by decide, by decide⟩
      · show s.cursor ≤ c₂
        omega
      · show c₂ ≤ s.source.length
        omega
    · rw [if_neg hesc] at h
      rw [exc_bind_ok] at h
      obtain ⟨v, hv, h⟩ := h
      cases h
      refine ⟨rfl, rfl, rfl, rfl, rfl, rfl, rfl, ?_, ?_,
        tk, _, "string", rfl, rfl, rfl, rfl, rfl, by decide, by decide⟩
      · show s.cursor ≤ c₂
        omega
      · show c₂ ≤ s.source.length
        omega

theorem lexRegExp_spec : LexSpec lexRegExp := by
  intro s s' hc h
  unfold lexRegExp at h
  cases hstk : s.tokens s.tokenIndex with
  | none => rw [hstk] at h; exact Except.noConfusion h
  | some tk =>
    simp only [hstk] at h
    rw [exc_bind_ok] at h
    obtain ⟨r, hrl, h⟩ := h
    have hb1 := regexLoop_bounds hrl
    rw [exc_bind_ok] at h
    obtain ⟨r₂, hfl, h⟩ := h
    have hb2 := flagsLoop_bounds hfl
    rw [exc_bind_ok] at h
    obtain ⟨st, hst, h⟩ := h
    rw [exc_bind_ok] at h
    obtain ⟨v, hv, h⟩ := h
    cases h
    refine ⟨rfl, rfl, rfl, rfl, rfl, rfl, rfl, ?_, ?_,
      tk, _, "regexp", rfl, rfl, rfl, rfl, rfl, by decide, by decide⟩
    · show s.cursor ≤ r₂ - 1
      omega
    · show r₂ - 1 ≤ s.source.length
      omega

theorem lexOp_spec (ch : Char) : LexSpec (fun s => lexOp s ch) := by
  intro s s' hc h
  have h' : lexOp s ch = .ok s' := h
  clear h
  unfold lexOp at h'
  cases hstk : s.tokens s.tokenIndex with
  | none => rw [hstk] at h'; exact Except.noConfusion h'
  | some tk =>
    simp only [hstk] at h'
    rw [exc_bind_ok] at h'
    obtain ⟨p, hol, h⟩ := h'
    obtain ⟨c₂, op⟩ := p
    have hb1 := opLoop_bounds hol
    try simp only [] at h
    rw [exc_bind_ok] at h
    obtain ⟨ch₂, hc2, h⟩ := h
    by_cases ha : ch₂ = '=' ∧ assignOperators.contains op = true
    · rw [if_pos ha] at h
      rw [exc_bind_ok] at h
      obtain ⟨base, hdg, h⟩ := h
      cases h
      refine ⟨rfl, rfl, rfl, rfl, rfl, rfl, rfl, ?_, ?_,
        tk, _, "assign", rfl, rfl, rfl, rfl, rfl, by decide, by decide⟩
      · show s.cursor ≤ c₂ + 1
        omega
      · show c₂ + 1 ≤ s.source.length
        omega
    · rw [if_neg ha] at h
      rw [exc_bind_ok] at h
      obtain ⟨ty₀, hdg, h⟩ := h
      try simp only [] at h
      cases h
      have h0 := opValues_ok _ (lookup_mem_values (dictGet_ok hdg))
      refine ⟨rfl, rfl, rfl, rfl, rfl, rfl, rfl, ?_, ?_,
        tk, _, _, rfl, rfl, rfl, rfl, rfl, ?_, ?_⟩
      · show s.cursor ≤ c₂
        omega
      · show c₂ ≤ s.source.length
        omega
      · split_ifs with h1 h2 h3
        · decide
        · decide
        · exact h0.1
        · exact h0.1
      · split_ifs with h1 h2 h3
        · decide
        · decide
        · exact h0.2
        · exact h0.2

theorem lexIdent_spec : LexSpec lexIdent := by
  intro s s' hc h
  unfold lexIdent at h
  cases hstk : s.tokens s.tokenIndex with
  | none => rw [hstk] at h; exact Except.noConfusion h
  | some tk =>
    simp only [hstk] at h
    rw [exc_bind_ok] at h
    obtain ⟨r, hil, h⟩ := h
    have hb1 := identLoop_bounds hc hil
    try simp only [] at h
    rw [exc_bind_ok] at h
    obtain ⟨st, hst, h⟩ := h
    by_cases hk : keywords.contains (String.mk (pySlice s.source st (r - 1))) = true
    · rw [if_pos hk] at h
      cases h
      have hmem : String.mk (pySlice s.source st (r - 1)) ∈ keywords :=
        List.mem_of_elem_eq_true hk
      have h0 := keywords_ok _ hmem
      refine ⟨rfl, rfl, rfl, rfl, rfl, rfl, rfl, ?_, ?_,
        tk, _, _, rfl, rfl, rfl, rfl, rfl, h0.1, h0.2⟩
      · show s.cursor ≤ r - 1
        omega
      · show r - 1 ≤ s.source.length
        omega
    · rw [if_neg hk] at h
      cases h
      refine ⟨rfl, rfl, rfl, rfl, rfl, rfl, rfl, ?_, ?_,
        tk, _, "identifier", rfl, rfl, rfl, rfl, rfl, by decide, by decide⟩
      · show s.cursor ≤ r - 1
        omega
      · show r - 1 ≤ s.source.length
        omega

theorem getLoop_ok_some {ty : String} :
    ∀ {n : ℕ} {s s' : Lexer}, getLoop n s = .ok (some ty, s') →
    s'.cursor = s.cursor ∧ s'.line = s.line ∧ s'.source = s.source ∧
    s'.tokens = s.tokens ∧ s'.filename = s.filename ∧
    s'.scanNewlines = s.scanNewlines ∧ s'.scanOperand = s.scanOperand ∧
    s'.lookahead < n ∧
    ∃ tok, s'.tokens s'.tokenIndex = some tok ∧ tok.type = some ty ∧
      (ty = "newline" → s'.scanNewlines = true) := by
  intro n
  induction n with
  | zero =>
    intro s s' h
    rw [getLoop] at h
    simp at h
  | succ n ih =>
    intro s s' h
    rw [getLoop] at h
    cases htk : s.tokens (s.tokenIndex + 1) with
    | none => simp only [htk] at h; exact Except.noConfusion h
    | some tok =>
      simp only [htk] at h
      cases hty : tok.type with
      | none => simp only [hty] at h; exact Except.noConfusion h
      | some ty₀ =>
        simp only [hty] at h
        by_cases hcond : ty₀ ≠ "newline" ∨ s.scanNewlines = true
        · rw [if_pos hcond] at h
          injection h with h1
          injection h1 with h2 h3
          injection h2 with h4
          subst h4
          subst h3
          refine ⟨rfl, rfl, rfl, rfl, rfl, rfl, rfl, Nat.lt_succ_self n, tok, htk, hty, ?_⟩
          intro hnl
          cases hcond with
          | inl hne => exact absurd hnl.symm (by subst hnl; simp at hne)
          | inr hsn => exact hsn
        · rw [if_neg hcond] at h
          have := ih h
          obtain ⟨e1, e2, e3, e4, e5, e6, e7, e8, rest⟩ := this
          exact ⟨e1, e2, e3, e4, e5, e6, e7, by omega, rest⟩

theorem getLoop_ok_none :
    ∀ {n : ℕ} {s s' : Lexer}, n = s.lookahead → getLoop n s = .ok (none, s') →
    s'.lookahead = 0 ∧ s'.cursor = s.cursor ∧ s'.line = s.line ∧
    s'.source = s.source ∧ s'.filename = s.filename ∧
    s'.scanNewlines = s.scanNewlines ∧ s'.scanOperand = s.scanOperand := by
  intro n
  induction n with
  | zero =>
    intro s s' hn h
    rw [getLoop] at h
    injection h with h1
    injection h1 with h2 h3
    subst h3
    exact ⟨hn.symm, rfl, rfl, rfl, rfl, rfl, rfl⟩
  | succ n ih =>
    intro s s' hn h
    rw [getLoop] at h
    cases htk : s.tokens (s.tokenIndex + 1) with
    | none => simp only [htk] at h; exact Except.noConfusion h
    | some tok =>
      simp only [htk] at h
      cases hty : tok.type with
      | none => simp only [hty] at h; exact Except.noConfusion h
      | some ty₀ =>
        simp only [hty] at h
        by_cases hcond : ty₀ ≠ "newline" ∨ s.scanNewlines = true
        · rw [if_pos hcond] at h
          injection h with h1
          injection h1 with h2 h3
          exact Option.noConfusion h2
        · rw [if_neg hcond] at h
          exact ih (s := { s with lookahead := n, tokenIndex := s.tokenIndex + 1 }) rfl h

theorem dispatchStep_spec {ch : Char} {s s' : Lexer} {tk0 : Token}
    (hc : s.cursor ≤ s.source.length)
    (hslot : s.tokens s.tokenIndex = some tk0)
    (h : dispatchStep ch s = .ok s') :
    s'.source = s.source ∧ s'.filename = s.filename ∧ s'.tokenIndex = s.tokenIndex ∧
    s'.lookahead = s.lookahead ∧ s'.scanNewlines = s.scanNewlines ∧
    s'.scanOperand = s.scanOperand ∧
    s.cursor ≤ s'.cursor ∧ s'.cursor ≤ s.source.length ∧
    ∃ tk' ty, s'.tokens = Function.update s.tokens s.tokenIndex (some tk') ∧
      tk'.start = tk0.start ∧ tk'.type = some ty ∧
      ty ≠ "end" ∧ (ty = "newline" → s.scanNewlines = true) := by
  unfold dispatchStep at h
  by_cases c1 : ('a' ≤ ch ∧ ch ≤ 'z') ∨ ('A' ≤ ch ∧ ch ≤ 'Z') ∨ ch = '$' ∨ ch = '_'
  · rw [if_pos c1] at h
    obtain ⟨h1, h2, h3, h4, h5, h6, h7, h8, h9, tk, tk', ty, ha, hb, hcs, hlin, ht, hn1, hn2⟩ :=
      lexIdent_spec s s' hc h
    have he := hslot.symm.trans ha
    injection he with he
    subst he
    exact ⟨h1, h2, h3, h4, h5, h6, h8, h9, tk', ty, hb, hcs, ht, hn2, fun hh => absurd hh hn1⟩
  · rw [if_neg c1] at h
    by_cases c2 : s.scanOperand = true ∧ ch = '/'
    · rw [if_pos c2] at h
      obtain ⟨h1, h2, h3, h4, h5, h6, h7, h8, h9, tk, tk', ty, ha, hb, hcs, hlin, ht, hn1, hn2⟩ :=
        lexRegExp_spec s s' hc h
      have he := hslot.symm.trans ha
      injection he with he
      subst he
      exact ⟨h1, h2, h3, h4, h5, h6, h8, h9, tk', ty, hb, hcs, ht, hn2, fun hh => absurd hh hn1⟩
    · rw [if_neg c2] at h
      by_cases c3 : ch = '.'
      · rw [if_pos c3] at h
        obtain ⟨h1, h2, h3, h4, h5, h6, h7, h8, h9, tk, tk', ty, ha, hb, hcs, hlin, ht, hn1, hn2⟩ :=
          lexDot_spec s s' hc h
        have he := hslot.symm.trans ha
        injection he with he
        subst he
        exact ⟨h1, h2, h3, h4, h5, h6, h8, h9, tk', ty, hb, hcs, ht, hn2, fun hh => absurd hh hn1⟩
      · rw [if_neg c3] at h
        by_cases c4 : s.scanNewlines = true ∧ ch = '\n'
        · rw [if_pos c4] at h
          injection h with h1
          subst h1
          refine ⟨rfl, rfl, rfl, rfl, rfl, rfl, le_refl _, hc,
            { tk0 with type := some "newline" }, "newline", ?_, rfl, rfl, by decide,
            fun _ => c4.1⟩
          show (Lexer.updTok s _).tokens = _
          unfold Lexer.updTok
          rw [hslot]
          rfl
        · rw [if_neg c4] at h
          by_cases c5 : (operatorNames.lookup ch.toString).isSome = true
          · rw [if_pos c5] at h
            obtain ⟨h1, h2, h3, h4, h5, h6, h7, h8, h9, tk, tk', ty, ha, hb, hcs, hlin, ht, hn1, hn2⟩ :=
              lexOp_spec ch s s' hc h
            have he := hslot.symm.trans ha
            injection he with he
            subst he
            exact ⟨h1, h2, h3, h4, h5, h6, h8, h9, tk', ty, hb, hcs, ht, hn2, fun hh => absurd hh hn1⟩
          · rw [if_neg c5] at h
            by_cases c6 : '1' ≤ ch ∧ ch ≤ '9'
            · rw [if_pos c6] at h
              obtain ⟨h1, h2, h3, h4, h5, h6, h7, h8, h9, tk, tk', ty, ha, hb, hcs, hlin, ht, hn1, hn2⟩ :=
                lexNumber_spec s s' hc h
              have he := hslot.symm.trans ha
              injection he with he
              subst he
              exact ⟨h1, h2, h3, h4, h5, h6, h8, h9, tk', ty, hb, hcs, ht, hn2, fun hh => absurd hh hn1⟩
            · rw [if_neg c6] at h
              by_cases c7 : ch = '0'
              · rw [if_pos c7] at h
                obtain ⟨h1, h2, h3, h4, h5, h6, h7, h8, h9, tk, tk', ty, ha, hb, hcs, hlin, ht, hn1, hn2⟩ :=
                  lexZeroNumber_spec s s' hc h
                have he := hslot.symm.trans ha
                injection he with he
                subst he
                exact ⟨h1, h2, h3, h4, h5, h6, h8, h9, tk', ty, hb, hcs, ht, hn2, fun hh => absurd hh hn1⟩
              · rw [if_neg c7] at h
                by_cases c8 : ch = '"' ∨ ch = '\''
                · rw [if_pos c8] at h
                  obtain ⟨h1, h2, h3, h4, h5, h6, h7, h8, h9, tk, tk', ty, ha, hb, hcs, hlin, ht, hn1, hn2⟩ :=
                    lexString_spec ch s s' hc h
                  have he := hslot.symm.trans ha
                  injection he with he
                  subst he
                  exact ⟨h1, h2, h3, h4, h5, h6, h8, h9, tk', ty, hb, hcs, ht, hn2, fun hh => absurd hh hn1⟩
                · rw [if_neg c8] at h
                  exact Except.noConfusion h

theorem freshScan_spec {s₁ : Lexer} {t : String} {s' : Lexer}
    (h : freshScan s₁ = .ok (t, s')) :
    s'.source = s₁.source ∧ s'.filename = s₁.filename ∧
    s'.scanNewlines = s₁.scanNewlines ∧ s'.scanOperand = s₁.scanOperand ∧
    s₁.cursor ≤ s'.cursor ∧ s'.lookahead = s₁.lookahead ∧
    ∃ tk, s'.tokens s'.tokenIndex = some tk ∧ tk.type = some t ∧
      (t = "newline" → s₁.scanNewlines = true) ∧
      (t = "end" → tk.start = none ∧ tk.tokEnd = none) ∧
      (t ≠ "end" → ∃ a b, tk.start = some a ∧ tk.tokEnd = some b ∧ a < b ∧
        b ≤ s₁.source.length) := by
  unfold freshScan at h
  by_cases hEnd : s₁.cursor = s₁.source.length
  · rw [if_pos hEnd] at h
    injection h with h1
    injection h1 with h2 h3
    subst h2
    subst h3
    refine ⟨rfl, rfl, rfl, rfl, le_refl _, rfl,
      { type := some "end" }, ?_, rfl, fun hh => absurd hh (by decide),
      fun _ => ⟨rfl, rfl⟩, fun hne => absurd rfl hne⟩
    show Function.update s₁.tokens (s₁.tokenIndex + 1)
      (some { type := some "end" }) (s₁.tokenIndex + 1) = _
    rw [Function.update_same]
  · rw [if_neg hEnd] at h
    rw [exc_bind_ok] at h
    obtain ⟨ch, hch, h⟩ := h
    have hcur : s₁.cursor < s₁.source.length := (charAt_ok hch).2
    try simp only [] at h
    rw [exc_bind_ok] at h
    obtain ⟨s₅, hdisp, h⟩ := h
    obtain ⟨d1, d2, d3, d4, d5, d6, d7, d8, tk', ty, htokens, hstart, htype, hne, hnl⟩ :=
      dispatchStep_spec
        (by show s₁.cursor + 1 ≤ s₁.source.length; omega)
        (by
          show Function.update s₁.tokens (s₁.tokenIndex + 1)
            (some { start := some s₁.cursor, line := some s₁.line }) (s₁.tokenIndex + 1) =
            some { start := some s₁.cursor, line := some s₁.line }
          rw [Function.update_same])
        hdisp
    have e1 : s₅.source = s₁.source := d1
    have e2 : s₅.filename = s₁.filename := d2
    have e3 : s₅.tokenIndex = s₁.tokenIndex + 1 := d3
    have e4 : s₅.lookahead = s₁.lookahead := d4
    have e5 : s₅.scanNewlines = s₁.scanNewlines := d5
    have e6 : s₅.scanOperand = s₁.scanOperand := d6
    have e7 : s₁.cursor + 1 ≤ s₅.cursor := d7
    have e8 : s₅.cursor ≤ s₁.source.length := d8
    have etok : s₅.tokens = Function.update
        (Function.update s₁.tokens (s₁.tokenIndex + 1)
          (some { start := some s₁.cursor, line := some s₁.line }))
        (s₁.tokenIndex + 1) (some tk') := by
      rw [htokens]
    have estart : tk'.start = some s₁.cursor := hstart
    have hfin : ((s₅.updTok (fun tk => { tk with tokEnd := some s₅.cursor })).tokens
        (s₅.updTok (fun tk => { tk with tokEnd := some s₅.cursor })).tokenIndex)
        = some { tk' with tokEnd := some s₅.cursor } := by
      show Function.update s₅.tokens s₅.tokenIndex
        ((s₅.tokens s₅.tokenIndex).map _) s₅.tokenIndex = _
      rw [Function.update_same, e3, etok, Function.update_same]
      rfl
    rw [hfin] at h
    simp only [Option.bind] at h
    have hty2 : ({ tk' with tokEnd := some s₅.cursor } : Token).type = some ty := htype
    rw [hty2] at h
    injection h with h1
    injection h1 with h2 h3
    subst h2
    subst h3
    refine ⟨e1, e2, e5, e6, ?_, e4, { tk' with tokEnd := some s₅.cursor },
      hfin, htype, hnl, fun hh => absurd hh hne, ?_⟩
    · show s₁.cursor ≤ s₅.cursor
      omega
    · intro _
      exact ⟨s₁.cursor, s₅.cursor, estart, rfl, by omega, by omega⟩

theorem get_spec {s : Lexer} {t : String} {s' : Lexer} (h : s.get = .ok (t, s')) :
    s'.source = s.source ∧ s'.filename = s.filename ∧
    s'.scanNewlines = s.scanNewlines ∧ s'.scanOperand = s.scanOperand ∧
    s.cursor ≤ s'.cursor ∧
    (s'.lookahead < s.lookahead ∨ s'.lookahead = 0) ∧
    ∃ tk, s'.tokens s'.tokenIndex = some tk ∧ tk.type = some t ∧
      (t = "newline" → s'.scanNewlines = true) ∧
      (s.lookahead = 0 →
        (t = "end" → tk.start = none ∧ tk.tokEnd = none) ∧
        (t ≠ "end" → ∃ a b, tk.start = some a ∧ tk.tokEnd = some b ∧ a < b ∧
          b ≤ s.source.length)) := by
  unfold Lexer.get at h
  rw [exc_bind_ok] at h
  obtain ⟨p, hgl, h⟩ := h
  obtain ⟨r, s₀⟩ := p
  cases r with
  | some ty =>
    simp only [] at h
    injection h with h1
    injection h1 with h2 h3
    subst h3
    subst h2
    obtain ⟨e1, e2, e3, e4, e5, e6, e7, e8, tok, htok, htokty, hnl⟩ := getLoop_ok_some hgl
    refine ⟨e3, e5, e6, e7, by omega, Or.inl e8, tok, htok, htokty, hnl, ?_⟩
    intro h0
    rw [h0] at e8
    exact absurd e8 (Nat.not_lt_zero _)
  | none =>
    simp only [] at h
    rw [exc_bind_ok] at h
    obtain ⟨s₁, hsk, h⟩ := h
    obtain ⟨g1, g2, g3, g4, g5, g6, g7⟩ := getLoop_ok_none rfl hgl
    obtain ⟨k1, k2, k3, k4, k5, k6, k7, k8⟩ := skip_ok hsk
    obtain ⟨f1, f2, f3, f4, f5, f6, tk, hstk, hty, hnl, hend, hspan⟩ := freshScan_spec h
    refine ⟨by rw [f1, k1, g4], by rw [f2, k2, g5], by rw [f3, k6, g6],
      by rw [f4, k7, g7], by omega, Or.inr (by rw [f6, k5, g1]), tk, hstk, hty,
      by rw [f3]; exact hnl, ?_⟩
    intro _
    constructor
    · exact hend
    · intro hne
      obtain ⟨a, b, ha, hb, hab, hblen⟩ := hspan hne
      refine ⟨a, b, ha, hb, hab, ?_⟩
      rw [k1, g4] at hblen
      exact hblen

/-! ## Frame and monotonicity helpers for the public primitives -/

theorem unget_frame {s s' : Lexer} (h : s.unget = .ok s') :
    s'.cursor = s.cursor ∧ s'.line = s.line ∧ s'.source = s.source ∧
    s'.tokens = s.tokens ∧ s'.filename = s.filename ∧
    s'.scanNewlines = s.scanNewlines ∧ s'.scanOperand = s.scanOperand ∧
    s'.lookahead = s.lookahead + 1 ∧ s'.tokenIndex = s.tokenIndex - 1 := by
  unfold Lexer.unget at h
  by_cases hc : s.lookahead + 1 = 4
  · rw [if_pos hc] at h
    exact Except.noConfusion h
  · rw [if_neg hc] at h
    cases h
    exact ⟨rfl, rfl, rfl, rfl, rfl, rfl, rfl, rfl, rfl⟩

theorem get_cursor_mono {s : Lexer} {t : String} {s' : Lexer}
    (h : s.get = .ok (t, s')) : s.cursor ≤ s'.cursor :=
  (get_spec h).2.2.2.2.1

theorem peek_cursor_mono {s : Lexer} {r : Option String} {s' : Lexer}
    (h : s.peek = .ok (r, s')) : s.cursor ≤ s'.cursor := by
  unfold Lexer.peek at h
  by_cases hl : s.lookahead ≠ 0
  · rw [if_pos hl] at h
    injection h with h1
    injection h1 with h2 h3
    subst h3
    exact le_refl _
  · rw [if_neg hl] at h
    rw [exc_bind_ok] at h
    obtain ⟨p, hg, h⟩ := h
    obtain ⟨t, s₁⟩ := p
    try simp only [] at h
    rw [exc_bind_ok] at h
    obtain ⟨s₂, hu, h⟩ := h
    injection h with h1
    injection h1 with h2 h3
    subst h3
    have h1c := get_cursor_mono hg
    have h2c := (unget_frame hu).1
    omega

theorem matchTok_cursor_mono {s : Lexer} {ty : String} {b : Bool} {s' : Lexer}
    (h : s.matchTok ty = .ok (b, s')) : s.cursor ≤ s'.cursor := by
  unfold Lexer.matchTok at h
  rw [exc_bind_ok] at h
  obtain ⟨p, hg, h⟩ := h
  obtain ⟨t, s₁⟩ := p
  try simp only [] at h
  by_cases he : t = ty
  · rw [if_pos he] at h
    injection h with h1
    injection h1 with h2 h3
    subst h3
    exact get_cursor_mono hg
  · rw [if_neg he] at h
    rw [exc_bind_ok] at h
    obtain ⟨s₂, hu, h⟩ := h
    injection h with h1
    injection h1 with h2 h3
    subst h3
    have h1c := get_cursor_mono hg
    have h2c := (unget_frame hu).1
    omega

theorem mustMatch_cursor_mono {s : Lexer} {ty : String} {r : Option Token} {s' : Lexer}
    (h : s.mustMatch ty = .ok (r, s')) : s.cursor ≤ s'.cursor := by
  unfold Lexer.mustMatch at h
  rw [exc_bind_ok] at h
  obtain ⟨p, hm, h⟩ := h
  obtain ⟨b₀, s₁⟩ := p
  try simp only [] at h
  by_cases hb : b₀ = true
  · rw [if_pos hb] at h
    injection h with h1
    injection h1 with h2 h3
    subst h3
    exact matchTok_cursor_mono hm
  · rw [if_neg hb] at h
    exact Except.noConfusion h

theorem peekOnSameLine_cursor_mono {s : Lexer} {r : Option String} {s' : Lexer}
    (h : s.peekOnSameLine = .ok (r, s')) : s.cursor ≤ s'.cursor := by
  unfold Lexer.peekOnSameLine at h
  rw [exc_bind_ok] at h
  obtain ⟨p, hp, h⟩ := h
  obtain ⟨t₀, s₁⟩ := p
  try simp only [] at h
  injection h with h1
  injection h1 with h2 h3
  subst h3
  have hm := peek_cursor_mono (s := { s with scanNewlines := true }) hp
  have hm2 : s.cursor ≤ s₁.cursor := hm
  exact hm2

/-- One replaying step of the `get` loop, for a state whose next ring
slot holds a token that is not a suppressed newline. -/
theorem getLoop_succ_ret {n : ℕ} {s : Lexer} {tok : Token} {ty : String} {s' : Lexer}
    (htk : s.tokens (s.tokenIndex + 1) = some tok)
    (hty : tok.type = some ty)
    (hcond : ty ≠ "newline" ∨ s.scanNewlines = true)
    (hs' : s' = { s with lookahead := n, tokenIndex := s.tokenIndex + 1 }) :
    getLoop (n + 1) s = .ok (some ty, s') := by
  rw [getLoop]
  simp only [htk]
  simp only [hty]
  rw [if_pos hcond, hs']

theorem exc_bind_error {α β : Type} {e : PyError} {f : α → Except PyError β} :
    ((Except.error e : Except PyError α) >>= f) = .error e := rfl

/-- A block comment consisting of `n` newline characters that runs to
the end of the input makes `blockLoop` fail with the line counter
advanced past every one of those newlines. -/
theorem blockLoop_all_newlines {fn : String} :
    ∀ (n : ℕ) {input : List Char} {fuel c l : ℕ},
      input.length = c + n → (∀ i, i < n → input[c + i]? = some '\n') → n < fuel →
      blockLoop input fn fuel c l =
        .error (.parseError "Unterminated comment" fn (l + n)) := by
  intro n
  induction n with
  | zero =>
    intro input fuel c l hlen hnl hf
    cases fuel with
    | zero => omega
    | succ f =>
      rw [blockLoop]
      rw [List.getElem?_eq_none_iff.mpr (by omega)]
      show Except.error (PyError.parseError "Unterminated comment" fn l) = _
      rw [Nat.add_zero]
  | succ m ih =>
    intro input fuel c l hlen hnl hf
    cases fuel with
    | zero => omega
    | succ f =>
      rw [blockLoop]
      have h0 : input[c]? = some '\n' := by
        have h := hnl 0 (by omega)
        rw [Nat.add_zero] at h
        exact h
      simp only [h0]
      simp only [if_true]
      have hrec := @ih input f (c + 1) (l + 1)
        (by omega)
        (by
          intro i hi
          have h := hnl (i + 1) (by omega)
          rw [show c + (i + 1) = (c + 1) + i from by omega] at h
          exact h)
        (by omega)
      rw [hrec, show (l + 1) + m = l + (m + 1) from by omega]
      rw [if_neg (show ¬('\n' = '*') from by decide)]

/-! ## The claims -/

/-- C1 (counterexample): an unterminated string literal does NOT raise
the structured lexical error: `lexString`'s reads are unguarded, so
lexing `"abc` escapes as a bare IndexError, which carries no message,
filename, or line — refuting the claim that every malformed input
raises the single structured error kind. -/
theorem unterminated_string_escapes_as_indexError :
    Lexer.get (initLexer ['"', 'a', 'b', 'c'] "f") = .error .indexError ∧
    (∀ m fn l, PyError.indexError = PyError.parseError m fn l → False) := by
  refine ⟨rfl, ?_⟩
  intro m fn l h
  exact PyError.noConfusion h

/-- C1 (amended): each of the enumerated malformed-input conditions —
unterminated block comment, unterminated regex, unterminated character
class, missing exponent digits, illegal leading character, a `mustMatch`
mismatch, and lookahead overflow — raises the structured `ParseError`
carrying its message, the filename label, and the current line; but an
unterminated string literal (and any other lexeme cut off by
end-of-input inside an unguarded read) instead escapes as a bare
IndexError. -/
theorem enumerated_failures_raise_parseError (fn : String) :
    Lexer.get (initLexer ['/', '*', 'x'] fn) =
      .error (.parseError "Unterminated comment" fn 1) ∧
    Lexer.get (initLexer ['/', 'a', 'b'] fn) =
      .error (.parseError "Unterminated regex" fn 1) ∧
    Lexer.get (initLexer ['/', '[', 'a'] fn) =
      .error (.parseError "Unterminated character class" fn 1) ∧
    Lexer.get (initLexer ['1', 'e', '+', ';'] fn) =
      .error (.parseError "Missing exponent" fn 1) ∧
    Lexer.get (initLexer ['#'] fn) =
      .error (.parseError "Illegal token: #" fn 1) ∧
    Lexer.mustMatch (initLexer [';', ' '] fn) "comma" =
      .error (.parseError "Missing comma" fn 1) ∧
    (∀ s : Lexer, s.lookahead = 3 →
      s.unget = .error (.parseError "PANIC: too much lookahead!" s.filename s.line)) ∧
    Lexer.get (initLexer ['"', 'a', 'b', 'c'] fn) = .error .indexError := by
  refine ⟨rfl, rfl, rfl, rfl, rfl, rfl, ?_, rfl⟩
  intro s h3
  unfold Lexer.unget
  rw [if_pos (by omega)]

/-- C1 (witness): the amended statement applied at a concrete filename
and at a concrete state with three outstanding ungets. -/
theorem enumerated_failures_raise_parseError_inst :
    Lexer.get (initLexer ['#'] "f") = .error (.parseError "Illegal token: #" "f" 1) ∧
    Lexer.unget { initLexer ['a'] "f" with lookahead := 3 } =
      .error (.parseError "PANIC: too much lookahead!" "f" 1) := by
  have h := enumerated_failures_raise_parseError "f"
  exact ⟨h.2.2.2.2.1, h.2.2.2.2.2.2.1 { initLexer ['a'] "f" with lookahead := 3 } rfl⟩

/-- C2 (counterexample): from a fresh lexer, the fourth consecutive
`unget` — not the fifth — raises the lookahead-overflow error: `unget`
increments `lookahead` first and panics as soon as it reaches 4. -/
theorem four_ungets_panic_on_fourth :
    ∃ s₁ s₂ s₃, (initLexer ['a'] "f").unget = .ok s₁ ∧ s₁.unget = .ok s₂ ∧
      s₂.unget = .ok s₃ ∧
      s₃.unget = .error (.parseError "PANIC: too much lookahead!" "f" 1) :=
  ⟨_, _, _, rfl, rfl, rfl, rfl⟩

/-- C2 (amended): from any state with no outstanding lookahead, three
consecutive `unget` calls succeed and the fourth raises the
lookahead-overflow `ParseError` carrying the filename and line. -/
theorem unget_overflow_on_fourth_call (s : Lexer) (h : s.lookahead = 0) :
    ∃ s₁ s₂ s₃, s.unget = .ok s₁ ∧ s₁.unget = .ok s₂ ∧ s₂.unget = .ok s₃ ∧
      s₃.unget = .error (.parseError "PANIC: too much lookahead!" s.filename s.line) := by
  have key : ∀ s' : Lexer, s'.lookahead + 1 ≠ 4 →
      s'.unget = .ok { s' with lookahead := s'.lookahead + 1, tokenIndex := s'.tokenIndex - 1 } := by
    intro s' hne
    unfold Lexer.unget
    rw [if_neg hne]
  refine ⟨_, _, _, key s (by omega),
    key _ (by show ¬(s.lookahead + 1 + 1 = 4); omega),
    key _ (by show ¬(s.lookahead + 1 + 1 + 1 = 4); omega), ?_⟩
  unfold Lexer.unget
  rw [if_pos (by show s.lookahead + 1 + 1 + 1 + 1 = 4; omega)]

/-- C2 (witness): the amended statement applied to a fresh lexer. -/
theorem unget_overflow_on_fourth_call_inst :
    ∃ s₁ s₂ s₃, (initLexer ['b'] "g").unget = .ok s₁ ∧ s₁.unget = .ok s₂ ∧
      s₂.unget = .ok s₃ ∧
      s₃.unget = .error (.parseError "PANIC: too much lookahead!" "g" 1) :=
  unget_overflow_on_fourth_call (initLexer ['b'] "g") rfl

/-- C3 (counterexample): an unterminated block comment opened on line 1
that contains a newline is reported at line 2 — the line where input ran
out — not at line 1 where the comment began, because the comment loop
keeps incrementing the line counter and the error uses the current
line. -/
theorem unterminated_comment_reports_eof_line :
    Lexer.get (initLexer ['/', '*', '\n'] "f") =
      .error (.parseError "Unterminated comment" "f" 2) ∧ (2 : ℕ) ≠ 1 :=
  ⟨rfl, by decide⟩

/-- C3 (amended): scanning past a block comment opener `/*` followed by
`n` newlines and no `*/` before end-of-input raises the
unterminated-comment error whose line number is `1 + n` — the line on
which input ran out (the start line plus every newline inside the
comment), which equals the comment's start line only when the comment
spans a single line. -/
theorem unterminated_comment_reports_line_at_eof (n : ℕ) (fn : String) :
    Lexer.get (initLexer ('/' :: '*' :: List.replicate n '\n') fn) =
      .error (.parseError "Unterminated comment" fn (1 + n)) := by
  have hlen : ('/' :: '*' :: List.replicate n '\n').length = n + 2 := by
    simp only [List.length_cons, List.length_replicate]
  have hblock : blockLoop ('/' :: '*' :: List.replicate n '\n') fn (n + 2 + 1) 2 1 =
      .error (.parseError "Unterminated comment" fn (1 + n)) := by
    apply blockLoop_all_newlines n
    · rw [hlen]
      omega
    · intro i hi
      rw [show 2 + i = (i + 1) + 1 from by omega]
      rw [List.getElem?_cons_succ, List.getElem?_cons_succ]
      rw [List.getElem?_replicate, if_pos hi]
    · omega
  have hsl : skipLoop ('/' :: '*' :: List.replicate n '\n') fn false
      (('/' :: '*' :: List.replicate n '\n').length + 1) 0 1 =
      .error (.parseError "Unterminated comment" fn (1 + n)) := by
    rw [hlen]
    rw [skipLoop]
    simp only [List.getElem?_cons_zero, List.getElem?_cons_succ]
    rw [if_neg (by decide)]
    simp only [and_self, if_true]
    rw [show (0 : ℕ) + 2 = 2 from rfl]
    rw [hlen]
    simp only [hblock]
  have hskip : Lexer.skip (initLexer ('/' :: '*' :: List.replicate n '\n') fn) =
      .error (.parseError "Unterminated comment" fn (1 + n)) := by
    show (match skipLoop ('/' :: '*' :: List.replicate n '\n') fn false
        (('/' :: '*' :: List.replicate n '\n').length + 1) 0 1 with
      | .error e => (.error e : Except PyError Lexer)
      | .ok (c, l) => .ok { initLexer ('/' :: '*' :: List.replicate n '\n') fn with
          cursor := c, line := l }) = _
    simp only [hsl]
  show ((initLexer ('/' :: '*' :: List.replicate n '\n') fn).skip >>=
    fun s => freshScan s) = _
  rw [hskip]
  rfl

/-- C4 (code bug): the zero-prefixed numeric branches call `parseInt` /
`parseFloat`, names that are never defined or imported in the module, so
`0x1F` and `010` raise `NameError` instead of producing 31 and 8; the
plain decimal, fraction, and exponent forms do work (`3.14e2` → 314.0,
`.5` → 0.5, `42` → 42). -/
theorem zero_prefixed_literals_raise_nameError (fn : String) :
    Lexer.get (initLexer ['0', 'x', '1', 'F', ' '] fn) = .error (.nameError "parseInt") ∧
    Lexer.get (initLexer ['0', '1', '0', ' '] fn) = .error (.nameError "parseInt") ∧
    Lexer.get (initLexer ['0', '.', '5', ' '] fn) = .error (.nameError "parseFloat") ∧
    (∃ s', Lexer.get (initLexer ['3', '.', '1', '4', 'e', '2', ' '] fn) = .ok ("number", s') ∧
      (s'.tokens s'.tokenIndex).bind Token.value = some (.vFloat (314 : ℚ))) ∧
    (∃ s', Lexer.get (initLexer ['.', '5', ' '] fn) = .ok ("number", s') ∧
      (s'.tokens s'.tokenIndex).bind Token.value = some (.vFloat (mkRat 1 2)) ∧
      (mkRat 1 2 : ℚ) = 1 / 2) ∧
    (∃ s', Lexer.get (initLexer ['4', '2', ' '] fn) = .ok ("number", s') ∧
      (s'.tokens s'.tokenIndex).bind Token.value = some (.vInt 42)) :=
  ⟨rfl, rfl, rfl, ⟨_, rfl, by rfl⟩, ⟨_, rfl, by rfl, by norm_num [Rat.mkRat_eq_div]⟩,
    ⟨_, rfl, rfl⟩⟩

/-- C5 (code bug): with `scanOperand` set, lexing `/abc/g ` reaches
`lexRegExp`, which scans the pattern and flags correctly but then feeds
the slice `/abc/g` to Python's `eval`, raising SyntaxError — so no
`regexp` token is ever returned; with `scanOperand` cleared, the same
leading `/` lexes as the division operator token `div` spanning exactly
the one character. -/
theorem regexp_eval_crashes_and_div_lexes (fn : String) :
    Lexer.get (initLexer ['/', 'a', 'b', 'c', '/', 'g', ' '] fn) = .error .evalFailure ∧
    (∃ s', Lexer.get { initLexer ['/', 'a', 'b', 'c', ' '] fn with scanOperand := false } =
        .ok ("div", s') ∧
      (s'.tokens s'.tokenIndex).bind Token.start = some 0 ∧
      (s'.tokens s'.tokenIndex).bind Token.tokEnd = some 1) :=
  ⟨rfl, ⟨_, rfl, rfl, rfl⟩⟩

/-- C6: from any reachable state (lookahead at most 3), a successful
`get` followed by `unget` and another `get` replays exactly the same
token type and restores exactly the state that followed the first `get`
— in particular `line` and `cursor` are unchanged by the pair. -/
theorem unget_then_get_replays_token (s : Lexer) (t : String) (s₁ : Lexer)
    (hla : s.lookahead ≤ 3) (h : s.get = .ok (t, s₁)) :
    ∃ s₂, s₁.unget = .ok s₂ ∧ s₂.get = .ok (t, s₁) := by
  obtain ⟨_, _, _, _, _, hlk, tk, htk, hty, hnl, _⟩ := get_spec h
  have hla1 : s₁.lookahead ≤ 2 := by
    rcases hlk with h' | h' <;> omega
  refine ⟨{ s₁ with lookahead := s₁.lookahead + 1, tokenIndex := s₁.tokenIndex - 1 }, ?_, ?_⟩
  · unfold Lexer.unget
    rw [if_neg (by omega)]
  · have htk2 : ({ s₁ with lookahead := s₁.lookahead + 1, tokenIndex := s₁.tokenIndex - 1 } : Lexer).tokens (({ s₁ with lookahead := s₁.lookahead + 1, tokenIndex := s₁.tokenIndex - 1 } : Lexer).tokenIndex + 1) = some tk := by
      show s₁.tokens (s₁.tokenIndex - 1 + 1) = some tk
      rw [sub_add_cancel]
      exact htk
    have hcond : t ≠ "newline" ∨ ({ s₁ with lookahead := s₁.lookahead + 1, tokenIndex := s₁.tokenIndex - 1 } : Lexer).scanNewlines = true := by
      by_cases hn : t = "newline"
      · exact Or.inr (show s₁.scanNewlines = true from hnl hn)
      · exact Or.inl hn
    have hs' : s₁ = { ({ s₁ with lookahead := s₁.lookahead + 1, tokenIndex := s₁.tokenIndex - 1 } : Lexer) with lookahead := s₁.lookahead, tokenIndex := ({ s₁ with lookahead := s₁.lookahead + 1, tokenIndex := s₁.tokenIndex - 1 } : Lexer).tokenIndex + 1 } := by
      show s₁ = { s₁ with lookahead := s₁.lookahead, tokenIndex := s₁.tokenIndex - 1 + 1 }
      rw [sub_add_cancel]
    have hgl2 := getLoop_succ_ret htk2 hty hcond hs'
    unfold Lexer.get
    rw [exc_bind_ok]
    exact ⟨(some t, s₁), hgl2, rfl⟩

/-- C6 (witness): the roundtrip at a concrete fresh lexer on `a `. -/
theorem unget_then_get_replays_token_inst :
    ∃ t s₁ s₂, Lexer.get (initLexer ['a', ' '] "f") = .ok (t, s₁) ∧
      s₁.unget = .ok s₂ ∧ s₂.get = .ok (t, s₁) := by
  obtain ⟨t, s₁, h⟩ : ∃ t s₁, Lexer.get (initLexer ['a', ' '] "f") = .ok (t, s₁) :=
    ⟨_, _, rfl⟩
  obtain ⟨s₂, h2, h3⟩ := unget_then_get_replays_token _ _ _ (by decide) h
  exact ⟨t, s₁, s₂, h, h2, h3⟩

/-- C8: every token produced by a fresh scan (no pending lookahead) has
`start < end ≤ source length`, except the end-of-input sentinel, which
carries no span at all. -/
theorem token_spans_valid (s : Lexer) (t : String) (s' : Lexer)
    (h0 : s.lookahead = 0) (h : s.get = .ok (t, s')) :
    ∃ tk, s'.tokens s'.tokenIndex = some tk ∧ tk.type = some t ∧
      (t = "end" → tk.start = none ∧ tk.tokEnd = none) ∧
      (t ≠ "end" → ∃ a b, tk.start = some a ∧ tk.tokEnd = some b ∧ a < b ∧
        b ≤ s.source.length) := by
  obtain ⟨_, _, _, _, _, _, tk, htk, hty, _, hspan⟩ := get_spec h
  exact ⟨tk, htk, hty, (hspan h0).1, (hspan h0).2⟩

/-- C8 (witness): spans at a concrete input `42 `. -/
theorem token_spans_valid_inst :
    ∃ t s' tk, Lexer.get (initLexer ['4', '2', ' '] "f") = .ok (t, s') ∧
      s'.tokens s'.tokenIndex = some tk ∧ tk.type = some t ∧
      (t = "end" → tk.start = none ∧ tk.tokEnd = none) ∧
      (t ≠ "end" → ∃ a b, tk.start = some a ∧ tk.tokEnd = some b ∧ a < b ∧
        b ≤ (initLexer ['4', '2', ' '] "f").source.length) := by
  obtain ⟨t, s', h⟩ : ∃ t s', Lexer.get (initLexer ['4', '2', ' '] "f") = .ok (t, s') :=
    ⟨_, _, rfl⟩
  obtain ⟨tk, h1, h2, h3, h4⟩ := token_spans_valid _ _ _ rfl h
  exact ⟨t, s', tk, h, h1, h2, h3, h4⟩

/-- C9: `unget` mutates only `lookahead` and `tokenIndex`, leaving
cursor, line, source, every buffered token, filename, and both mode
flags unchanged; and the cursor is monotonically non-decreasing across
every lexer operation — `get`, `peek`, `match`, `mustMatch`,
`peekOnSameLine`, and pushback itself. -/
theorem unget_touches_only_lookahead_and_tokenIndex :
    (∀ s s' : Lexer, s.unget = .ok s' → s'.cursor = s.cursor ∧ s'.line = s.line ∧
      s'.source = s.source ∧ s'.tokens = s.tokens ∧ s'.filename = s.filename ∧
      s'.scanNewlines = s.scanNewlines ∧ s'.scanOperand = s.scanOperand ∧
      s'.lookahead = s.lookahead + 1 ∧ s'.tokenIndex = s.tokenIndex - 1) ∧
    (∀ (s : Lexer) (t : String) (s' : Lexer), s.get = .ok (t, s') → s.cursor ≤ s'.cursor) ∧
    (∀ (s : Lexer) (r : Option String) (s' : Lexer), s.peek = .ok (r, s') →
      s.cursor ≤ s'.cursor) ∧
    (∀ (s : Lexer) (ty : String) (b : Bool) (s' : Lexer), s.matchTok ty = .ok (b, s') →
      s.cursor ≤ s'.cursor) ∧
    (∀ (s : Lexer) (ty : String) (r : Option Token) (s' : Lexer),
      s.mustMatch ty = .ok (r, s') → s.cursor ≤ s'.cursor) ∧
    (∀ (s : Lexer) (r : Option String) (s' : Lexer), s.peekOnSameLine = .ok (r, s') →
      s.cursor ≤ s'.cursor) :=
  ⟨fun _ _ h => unget_frame h,
   fun _ _ _ h => get_cursor_mono h,
   fun _ _ _ h => peek_cursor_mono h,
   fun _ _ _ _ h => matchTok_cursor_mono h,
   fun _ _ _ _ h => mustMatch_cursor_mono h,
   fun _ _ _ h => peekOnSameLine_cursor_mono h⟩

/-- C9 (witness): the frame condition at a concrete `unget`. -/
theorem unget_touches_only_lookahead_and_tokenIndex_inst :
    ∃ s', (initLexer ['c'] "f").unget = .ok s' ∧
      s'.cursor = (initLexer ['c'] "f").cursor ∧ s'.line = (initLexer ['c'] "f").line := by
  obtain ⟨s', h⟩ : ∃ s', (initLexer ['c'] "f").unget = .ok s' := ⟨_, rfl⟩
  have hf := unget_touches_only_lookahead_and_tokenIndex.1 _ _ h
  exact ⟨s', h, hf.1, hf.2.1⟩

/-- C10 (code bug): a fresh lexer starts with `scanOperand` set,
`scanNewlines` cleared, `lookahead` 0, `line` 1, and `cursor` 0, so a
source beginning with `/` is dispatched to the regex lexer rather than
the division operator — but the regex lexer's `eval` of the slice then
raises SyntaxError, so no `regexp` token is produced; clearing
`scanOperand` on the same source yields the `div` token. -/
theorem fresh_lexer_operand_mode_and_regex_dispatch (src : List Char) (fn : String) :
    (initLexer src fn).scanOperand = true ∧ (initLexer src fn).scanNewlines = false ∧
    (initLexer src fn).lookahead = 0 ∧ (initLexer src fn).line = 1 ∧
    (initLexer src fn).cursor = 0 ∧
    Lexer.get (initLexer ['/', 'a', '/', ' '] fn) = .error .evalFailure ∧
    (∃ s', Lexer.get { initLexer ['/', 'a', '/', ' '] fn with scanOperand := false } =
      .ok ("div", s')) :=
  ⟨rfl, rfl, rfl, rfl, rfl, rfl, ⟨_, rfl⟩⟩

/-- C7 (counterexample): when `scanNewlines` is already true,
`peekOnSameLine` does not restore it: it unconditionally assigns
`False`, so the prior value `true` is lost. -/
theorem peekOnSameLine_discards_prior_true :
    ∃ t s', Lexer.peekOnSameLine { initLexer ['a', ' '] "f" with scanNewlines := true } =
        .ok (t, s') ∧
      s'.scanNewlines ≠ ({ initLexer ['a', ' '] "f" with
        scanNewlines := true } : Lexer).scanNewlines := by
  refine ⟨_, _, rfl, ?_⟩
  decide

/-- C7 (amended): after a successful `peekOnSameLine` the
`scanNewlines` flag is always `false` — the prior value is restored
only when it was `false` (the parser's usual calling convention), and a
prior `true` is overwritten. -/
theorem peekOnSameLine_leaves_scanNewlines_false (s : Lexer) (t : Option String)
    (s' : Lexer) (h : s.peekOnSameLine = .ok (t, s')) : s'.scanNewlines = false := by
  unfold Lexer.peekOnSameLine at h
  rw [exc_bind_ok] at h
  obtain ⟨p, hp, h⟩ := h
  obtain ⟨t₀, s₁⟩ := p
  try simp only [] at h
  injection h with h1
  injection h1 with h2 h3
  subst h3
  rfl

/-- C7 (witness): the amended statement at a concrete peek. -/
theorem peekOnSameLine_leaves_scanNewlines_false_inst :
    ∃ t s', Lexer.peekOnSameLine (initLexer ['z', ' '] "f") = .ok (t, s') ∧
      s'.scanNewlines = false := by
  obtain ⟨t, s', h⟩ : ∃ t s', Lexer.peekOnSameLine (initLexer ['z', ' '] "f") =
      .ok (t, s') := ⟨_, _, rfl⟩
  exact ⟨t, s', h, peekOnSameLine_leaves_scanNewlines_false _ _ _ h⟩
